import Mathlib

/-!
Verification development for the document comparison engine of the repository.

The engine compares two markup documents and produces mutually highlighted
outputs plus a change summary and a detailed report.  The algorithmic core
(plain-text fast path, element comparison, three-pass alignment, similarity
ratio, summary accumulation, placeholder truncation) is embedded below as
executable Lean definitions translated from the source.  Browser primitives
(markup parsing, computed-style reads, markup serialisation) are not part of
the repository source; where a value produced by such a primitive is needed it
is carried as explicit data on the document model, and this is noted at the
definition.
-/

/-! ## String utilities shared by both pipelines -/

/-- Collapse every maximal run of whitespace characters to one single space.
This embeds the JavaScript global replacement of whitespace runs by a space
used in the normalisation helpers of both source files.  The boolean argument
records whether the previously seen character was whitespace. -/
def collapseWsAux : List Char → Bool → List Char
  | [], _ => []
  | c :: cs, prevWs =>
    if c.isWhitespace then
      if prevWs then collapseWsAux cs true
      else ' ' :: collapseWsAux cs true
    else c :: collapseWsAux cs false

/-- Collapse whitespace runs of a string to single spaces. -/
def collapseWs (s : String) : String :=
  ⟨collapseWsAux s.data false⟩

/-- The JavaScript trim: drop whitespace from both ends of the string.  The
core library trim walks byte positions by well-founded recursion, so this
character-level equivalent is used to keep every definition computable by
the kernel. -/
def jsTrim (s : String) : String :=
  ⟨((s.data.dropWhile Char.isWhitespace).reverse.dropWhile Char.isWhitespace).reverse⟩

/-- The JavaScript toLowerCase, mapped over the characters. -/
def jsToLower (s : String) : String :=
  ⟨s.data.map Char.toLower⟩

/-- Normalisation used by areTextsEqual in textComparison.js (lines 578-581):
trim, collapse whitespace runs to one space, then lower-case. -/
def normalizeForTextEquality (t : String) : String :=
  jsToLower (collapseWs (jsTrim t))

/-- areTextsEqual from textComparison.js lines 578-581: the two texts are
compared after trimming, whitespace collapsing and lower-casing. -/
def areTextsEqual (t1 t2 : String) : Bool :=
  normalizeForTextEquality t1 == normalizeForTextEquality t2

/-- Normalisation used by areElementsExactlyIdentical in the exact-mutual
pipeline (part 002 lines 680-688): collapse whitespace runs, then trim.
No lower-casing happens there. -/
def collapseThenTrim (t : String) : String :=
  jsTrim (collapseWs t)

/-! ## Character diff model (Similarity Oracle)

The diff primitive is the external diff-match-patch library, a third-party
dependency that is not part of the repository.  The spec describes it as a
character-level longest-common-subsequence style diff.  It is modelled here
by the textbook LCS recursion: matching heads are emitted as equal runs, and
otherwise the branch that keeps the larger total of equal characters wins.
Only the validity of the diff (both inputs are reconstructible, hence the
equal total is bounded by both lengths) matters for the claims. -/

/-- A single diff operation kind: unchanged, inserted or deleted text. -/
inductive DiffOp
  | equal
  | insert
  | delete
deriving DecidableEq

/-- One diff record: an operation together with the characters it covers. -/
structure DiffRec where
  op : DiffOp
  chars : List Char
deriving DecidableEq

/-- Total number of characters covered by equal operations; this is the
unchanged length that getTextSimilarity accumulates. -/
def equalTotal : List DiffRec → Nat
  | [] => 0
  | r :: rs => (if r.op = DiffOp.equal then r.chars.length else 0) + equalTotal rs

/-- Modelled from the spec: diff_main of the external diff-match-patch
library (a character-level longest-common-subsequence style diff, spec
section 4.2).  The library is not repository code, so it is modelled by the
standard LCS recursion, driven by a fuel argument so that the kernel can
evaluate it; diffMain below supplies enough fuel for the recursion never to
hit the fuel-exhausted fallback. -/
def diffMainFuel : Nat → List Char → List Char → List DiffRec
  | _, [], [] => []
  | _, [], b :: bs => [⟨DiffOp.insert, b :: bs⟩]
  | _, a :: as, [] => [⟨DiffOp.delete, a :: as⟩]
  | 0, a :: as, b :: bs => [⟨DiffOp.delete, a :: as⟩, ⟨DiffOp.insert, b :: bs⟩]
  | fuel + 1, a :: as, b :: bs =>
    if a = b then ⟨DiffOp.equal, [a]⟩ :: diffMainFuel fuel as bs
    else
      let dDel := diffMainFuel fuel as (b :: bs)
      let dIns := diffMainFuel fuel (a :: as) bs
      if equalTotal dIns ≤ equalTotal dDel then ⟨DiffOp.delete, [a]⟩ :: dDel
      else ⟨DiffOp.insert, [b]⟩ :: dIns

/-- The diff primitive applied with sufficient fuel. -/
def diffMain (as bs : List Char) : List DiffRec :=
  diffMainFuel (as.length + bs.length) as bs

/-- Characters of the left input described by a diff: everything except
insertions. -/
def sourceChars : List DiffRec → List Char
  | [] => []
  | r :: rs => (if r.op = DiffOp.insert then [] else r.chars) ++ sourceChars rs

/-- Characters of the right input described by a diff: everything except
deletions. -/
def targetChars : List DiffRec → List Char
  | [] => []
  | r :: rs => (if r.op = DiffOp.delete then [] else r.chars) ++ targetChars rs

/-- Modelled from the spec: the semantic cleanup pass of diff-match-patch
(spec section 4.2, merges fragmented edits into larger chunks).  Modelled as
the merge of adjacent records carrying the same operation; no compared value
in the claims depends on its exact output. -/
def diffCleanupSemantic : List DiffRec → List DiffRec
  | [] => []
  | r :: rs =>
    match diffCleanupSemantic rs with
    | [] => [r]
    | s :: ss => if r.op = s.op then ⟨r.op, r.chars ++ s.chars⟩ :: ss else r :: s :: ss

/-- getTextSimilarity, identical in textComparison.js lines 559-576 and
part 002 lines 703-720: 1 when both texts are empty, 0 when exactly one is
empty, otherwise the ratio of the unchanged character total of the diff to
the larger of the two lengths. -/
def getTextSimilarity (text1 text2 : String) : ℚ :=
  if text1.isEmpty && text2.isEmpty then 1
  else if text1.isEmpty || text2.isEmpty then 0
  else
    let diffs := diffMain text1.data text2.data
    let totalLength := max text1.length text2.length
    let unchangedLength := equalTotal diffs
    if 0 < totalLength then (unchangedLength : ℚ) / (totalLength : ℚ) else 0

/-! ## Format-preserving pipeline (textComparison.js) -/

/-- Computed style snapshot captured per element, textComparison.js lines
182-202 (captureComputedStyles).  The values come from the browser resolved
style mechanism, which is a platform primitive; the snapshot therefore
travels as plain data. -/
structure ComputedStyles where
  fontFamily : String
  fontSize : String
  fontWeight : String
  fontStyle : String
  color : String
  backgroundColor : String
  textAlign : String
  lineHeight : String
  margin : String
  padding : String
  border : String
deriving DecidableEq

/-- Formatting context captured per element, textComparison.js lines 155-164.
The raw attribute map is omitted: no compared logic reads it. -/
structure FormattingContext where
  tagName : String
  className : String
  style : String
  computedStyles : ComputedStyles
deriving DecidableEq

/-- One extracted element of the format-preserving pipeline, textComparison.js
lines 166-175.  The live DOM node and the uniqueId timestamp are omitted; the
text field holds the trimmed textContent that extraction stores. -/
structure FormattedElement where
  text : String
  innerHTML : String
  outerHTML : String
  index : Nat
  formattingContext : FormattingContext
deriving DecidableEq

/-- isEmpty as extraction computes it at textComparison.js line 172: the
negation of the truthiness of the trimmed text. -/
def FormattedElement.isEmpty (e : FormattedElement) : Bool :=
  e.text.isEmpty

/-- hasFormattingDifferences, textComparison.js lines 312-319: some key
computed style property differs between the two elements. -/
def hasFormattingDifferences (leftElement rightElement : FormattedElement) : Bool :=
  let ls := leftElement.formattingContext.computedStyles
  let rs := rightElement.formattingContext.computedStyles
  (ls.fontFamily != rs.fontFamily) || (ls.fontSize != rs.fontSize) ||
    (ls.fontWeight != rs.fontWeight) || (ls.fontStyle != rs.fontStyle) ||
    (ls.color != rs.color) || (ls.textAlign != rs.textAlign)

/-- Highlight classifications used by the processed units of both pipelines. -/
inductive Highlight
  | none
  | added
  | removed
  | modified
  | formatChanged
  | placeholderAdded
  | placeholderRemoved
deriving DecidableEq

/-- A processed unit of the format-preserving pipeline: the original element
(none for a synthesized placeholder), its highlight, and the placeholder
payload when present.  The processedContent markup produced by the inline
word diff is DOM-rendered and inspected by no claim, so it is omitted. -/
structure ProcessedElement where
  elem : Option FormattedElement
  highlight : Highlight
  placeholderContent : Option String
  placeholderFormatting : Option FormattingContext
deriving DecidableEq

/-- createPlaceholderElement, textComparison.js lines 295-309: a placeholder
unit keeping the source element text and formatting context. -/
def createPlaceholderElement (sourceElement : FormattedElement) (ty : String) : ProcessedElement :=
  ⟨Option.none,
   if ty == "added" then Highlight.placeholderAdded else Highlight.placeholderRemoved,
   some sourceElement.text, some sourceElement.formattingContext⟩

/-- Accumulator of performElementComparison: the two processed streams and
the running addition and deletion counters. -/
structure ECAcc where
  leftProcessed : List ProcessedElement
  rightProcessed : List ProcessedElement
  additions : Nat
  deletions : Nat
deriving DecidableEq

/-- Branch body of performElementComparison when both positions hold an
element, textComparison.js lines 216-273, factored out of the loop: empty
pairs pass through, one-sided emptiness yields placeholder plus counter,
equal texts split on formatting differences, anything else is modified. -/
def processBothPresent (l r : FormattedElement) : ECAcc :=
  if l.isEmpty && r.isEmpty then
    ⟨[⟨some l, Highlight.none, Option.none, Option.none⟩],
     [⟨some r, Highlight.none, Option.none, Option.none⟩], 0, 0⟩
  else if l.isEmpty && !r.isEmpty then
    ⟨[⟨some l, Highlight.placeholderAdded, some r.text, some r.formattingContext⟩],
     [⟨some r, Highlight.added, Option.none, Option.none⟩], 1, 0⟩
  else if !l.isEmpty && r.isEmpty then
    ⟨[⟨some l, Highlight.removed, Option.none, Option.none⟩],
     [⟨some r, Highlight.placeholderRemoved, some l.text, some l.formattingContext⟩], 0, 1⟩
  else if areTextsEqual l.text r.text then
    if hasFormattingDifferences l r then
      ⟨[⟨some l, Highlight.formatChanged, Option.none, Option.none⟩],
       [⟨some r, Highlight.formatChanged, Option.none, Option.none⟩], 1, 0⟩
    else
      ⟨[⟨some l, Highlight.none, Option.none, Option.none⟩],
       [⟨some r, Highlight.none, Option.none, Option.none⟩], 0, 0⟩
  else
    ⟨[⟨some l, Highlight.modified, Option.none, Option.none⟩],
     [⟨some r, Highlight.modified, Option.none, Option.none⟩], 1, 1⟩

/-- Extend an accumulator on the left by the contribution of one loop
iteration. -/
def ECAcc.prepend (h t : ECAcc) : ECAcc :=
  ⟨h.leftProcessed ++ t.leftProcessed, h.rightProcessed ++ t.rightProcessed,
   h.additions + t.additions, h.deletions + t.deletions⟩

/-- Tail of the performElementComparison loop once the left list is
exhausted, textComparison.js lines 279-284: every remaining right element is
an addition with a placeholder on the left. -/
def processRightTail : List FormattedElement → ECAcc
  | [] => ⟨[], [], 0, 0⟩
  | r :: rs =>
    ECAcc.prepend
      ⟨[createPlaceholderElement r "added"],
       [⟨some r, Highlight.added, Option.none, Option.none⟩], 1, 0⟩
      (processRightTail rs)

/-- The index loop of performElementComparison, textComparison.js lines
205-285, written as recursion on the left list with the right list walked in
step (the source loop walks positions zero to the larger length and reads
both lists at the current position, which visits exactly these shapes). -/
def performElementComparisonAux : List FormattedElement → List FormattedElement → ECAcc
  | [], rs => processRightTail rs
  | l :: ls, [] =>
    ECAcc.prepend
      ⟨[⟨some l, Highlight.removed, Option.none, Option.none⟩],
       [createPlaceholderElement l "removed"], 0, 1⟩
      (performElementComparisonAux ls [])
  | l :: ls, r :: rs => (processBothPresent l r).prepend (performElementComparisonAux ls rs)

/-- Change summary of a comparison result. -/
structure Summary where
  additions : Nat
  deletions : Nat
  changes : Nat
deriving DecidableEq

/-- Output of performElementComparison. -/
structure ElementComparisonOutput where
  leftProcessed : List ProcessedElement
  rightProcessed : List ProcessedElement
  summary : Summary
deriving DecidableEq

/-- performElementComparison, textComparison.js lines 205-292: run the loop
and report changes as additions plus deletions (line 290). -/
def performElementComparison (leftElements rightElements : List FormattedElement) :
    ElementComparisonOutput :=
  let t := performElementComparisonAux leftElements rightElements
  ⟨t.leftProcessed, t.rightProcessed, ⟨t.additions, t.deletions, t.additions + t.deletions⟩⟩

/-- escapeHtml, textComparison.js lines 631-635: the browser escapes markup
text by the textContent to innerHTML round trip, a platform primitive that
escapes the ampersand and the two angle brackets; modelled directly. -/
def escapeChar (c : Char) : List Char :=
  if c = '&' then "&amp;".data
  else if c = '<' then "&lt;".data
  else if c = '>' then "&gt;".data
  else [c]

/-- escapeHtml over a whole string. -/
def escapeHtml (t : String) : String :=
  ⟨(t.data.map escapeChar).flatten⟩

/-- Render one record of an inline diff, textComparison.js lines 706-712. -/
def renderInlineDiffRec (r : DiffRec) : String :=
  let escaped := escapeHtml ⟨r.chars⟩
  if r.op = DiffOp.insert then
    "<span class=\"diff-highlight-added\" style=\"background-color: #dcfce7; color: #166534; padding: 1px 2px; border-radius: 2px; font-family: inherit; font-size: inherit; font-weight: inherit;\">" ++ escaped ++ "</span>"
  else if r.op = DiffOp.delete then
    "<span class=\"diff-highlight-removed\" style=\"background-color: #fecaca; color: #991b1b; padding: 1px 2px; border-radius: 2px; text-decoration: line-through; font-family: inherit; font-size: inherit; font-weight: inherit;\">" ++ escaped ++ "</span>"
  else escaped

/-- createFormattedInlineDiff, textComparison.js lines 701-714: diff the two
texts, apply the semantic cleanup, and render each record. -/
def createFormattedInlineDiff (leftText rightText : String) : String :=
  let diffs := diffCleanupSemantic (diffMain leftText.data rightText.data)
  String.join (diffs.map renderInlineDiffRec)

/-- One line entry of the detailed report, textComparison.js lines 653-689. -/
structure ReportLine where
  v1 : String
  v2 : String
  status : String
  diffHtml : String
  formatChanges : List String
deriving DecidableEq

/-- Detailed report, textComparison.js line 693: lines plus always-empty
table and image lists in this pipeline. -/
structure DetailedReport where
  lines : List ReportLine
  tables : List String
  images : List String
deriving DecidableEq

/-- Loop body of generateFormattedDetailedReport for a position where both
elements exist, textComparison.js lines 647-673. -/
def reportLineBoth (i : Nat) (l r : FormattedElement) : ReportLine :=
  if areTextsEqual l.text r.text then
    let formatChanges := if hasFormattingDifferences l r then ["Formatting modified"] else []
    ⟨toString (i + 1), toString (i + 1),
     if formatChanges.length > 0 then "FORMATTING-ONLY" else "UNCHANGED",
     escapeHtml l.text, formatChanges⟩
  else
    ⟨toString (i + 1), toString (i + 1), "MODIFIED",
     createFormattedInlineDiff l.text r.text,
     if hasFormattingDifferences l r then ["Content and formatting modified"]
     else ["Content modified"]⟩

/-- Report lines once the left list is exhausted, textComparison.js lines
682-690. -/
def reportRightTail : Nat → List FormattedElement → List ReportLine
  | _, [] => []
  | i, r :: rs =>
    ⟨"", toString (i + 1), "ADDED",
     "<span class=\"diff-highlight-added\">" ++ escapeHtml r.text ++ "</span>",
     ["Element added"]⟩ :: reportRightTail (i + 1) rs

/-- The index loop of generateFormattedDetailedReport, textComparison.js
lines 643-691, as recursion on the left list carrying the position. -/
def generateFormattedDetailedReportAux :
    Nat → List FormattedElement → List FormattedElement → List ReportLine
  | i, [], rs => reportRightTail i rs
  | i, l :: ls, [] =>
    ⟨toString (i + 1), "", "REMOVED",
     "<span class=\"diff-highlight-removed\">" ++ escapeHtml l.text ++ "</span>",
     ["Element removed"]⟩ :: generateFormattedDetailedReportAux (i + 1) ls []
  | i, l :: ls, r :: rs =>
    reportLineBoth i l r :: generateFormattedDetailedReportAux (i + 1) ls rs

/-- generateFormattedDetailedReport, textComparison.js lines 638-698.  The
surrounding try catch only fires on platform failures, which the pure model
cannot produce. -/
def generateFormattedDetailedReport (leftElements rightElements : List FormattedElement) :
    DetailedReport :=
  ⟨generateFormattedDetailedReportAux 0 leftElements rightElements, [], []⟩

/-- Preview truncation of the whole-unit placeholder path of the
format-preserving pipeline, textComparison.js line 550: one hundred
characters with an ellipsis appended when the content is longer. -/
def createFormattedPlaceholderPreview (content : String) : String :=
  if 100 < content.length then content.take 100 ++ "..." else content

/-- One document handed to the comparison entry point: the raw markup
string together with the two platform-derived views the source reads from
the DOM, the textContent of the parsed markup and the extracted element
sequence (markup parsing and computed-style capture are browser primitives,
textComparison.js lines 96-179 and 595-606). -/
structure HtmlDoc where
  raw : String
  textContent : String
  elements : List FormattedElement
deriving DecidableEq

/-- extractPlainText, textComparison.js lines 595-606: empty markup gives
the empty string, otherwise the textContent of the parsed markup. -/
def extractPlainText (d : HtmlDoc) : String :=
  if d.raw.isEmpty then "" else d.textContent

/-- One entry of the leftDiffs or rightDiffs result lists; dtype mirrors the
JavaScript type key holding equal, insert or delete. -/
structure DiffItem where
  dtype : String
  content : String
deriving DecidableEq

/-- Result of the comparison entry point, textComparison.js lines 38-43,
55-60 and 87-92. -/
structure ComparisonResult where
  leftDiffs : List DiffItem
  rightDiffs : List DiffItem
  summary : Summary
  detailed : DetailedReport
deriving DecidableEq

/-- The verbatim result shared by the fast path (textComparison.js lines
38-43) and the error fallback (lines 55-60): both original markup strings
unchanged, a zero summary, and the empty detailed report. -/
def verbatimResult (leftHtml rightHtml : HtmlDoc) : ComparisonResult :=
  ⟨[⟨"equal", leftHtml.raw⟩], [⟨"equal", rightHtml.raw⟩], ⟨0, 0, 0⟩, ⟨[], [], []⟩⟩

/-- performFormatPreservingComparison, textComparison.js lines 67-93.  Its
highlight rebuilding step applyFormattingPreservingHighlights (lines 461-536)
mutates a clone of the live browser tree through platform primitives
(cloneNode, querySelectorAll, attribute reads, style, class and markup
assignment) and returns the serialised markup of that mutated tree; the
mutation targets and the serialisation exist only inside a browser, so the
rebuilt markup string is taken here as an explicit renderer parameter
receiving the document and its processed units, and every theorem about the
entry point quantifies over that parameter (it therefore holds for the
markup the browser actually produces).  The summary and the detailed report
do not depend on the renderer. -/
def performFormatPreservingComparison
    (render : HtmlDoc → List ProcessedElement → String)
    (leftHtml rightHtml : HtmlDoc) : ComparisonResult :=
  let c := performElementComparison leftHtml.elements rightHtml.elements
  ⟨[⟨"equal", render leftHtml c.leftProcessed⟩],
   [⟨"equal", render rightHtml c.rightProcessed⟩],
   c.summary,
   generateFormattedDetailedReport leftHtml.elements rightHtml.elements⟩

/-- Failure taxonomy of spec section 7: malformed markup, extraction
failure, diff failure. -/
inductive CompError
  | malformedMarkup
  | extractionFailure
  | diffFailure
deriving DecidableEq

/-- compareHtmlDocuments with the body of the slow path abstracted as a
fallible computation, textComparison.js lines 27-64: the fast path fires
when the trimmed plain texts coincide (line 36), and any failure raised by
the comparison body is caught and replaced by the verbatim fallback (lines
53-61).  The promise resolves in every branch, never rejects. -/
def compareHtmlDocumentsWith
    (slow : HtmlDoc → HtmlDoc → Except CompError ComparisonResult)
    (leftHtml rightHtml : HtmlDoc) : ComparisonResult :=
  if jsTrim (extractPlainText leftHtml) == jsTrim (extractPlainText rightHtml) then
    verbatimResult leftHtml rightHtml
  else
    match slow leftHtml rightHtml with
    | Except.ok res => res
    | Except.error _ => verbatimResult leftHtml rightHtml

/-- compareHtmlDocuments, textComparison.js lines 27-64, with the actual
slow path plugged in (the pure model of the slow path cannot itself fail;
claim C2 quantifies over the abstracted body instead).  The renderer
parameter of the slow path is threaded through. -/
def compareHtmlDocuments (render : HtmlDoc → List ProcessedElement → String)
    (leftHtml rightHtml : HtmlDoc) : ComparisonResult :=
  compareHtmlDocumentsWith
    (fun a b => Except.ok (performFormatPreservingComparison render a b)) leftHtml rightHtml

/-! ## Exact-mutual pipeline (source file part 002) -/

/-- One extracted element of the exact-mutual pipeline, part 002 lines
219-237.  The preserved style and exact dimension snapshots are platform
reads used only while rendering placeholders and inspected by no compared
logic, so they are omitted; src and alt carry the image attributes that
areElementsExactlyIdentical reads from the cloned node (lines 671-674). -/
structure ExactElement where
  text : String
  html : String
  tagName : String
  src : String
  alt : String
deriving DecidableEq

/-- isImage flag, part 002 line 227. -/
def ExactElement.isImage (e : ExactElement) : Bool :=
  e.tagName == "img"

/-- isTable flag, part 002 line 228. -/
def ExactElement.isTable (e : ExactElement) : Bool :=
  e.tagName == "table"

/-- isEmpty flag, part 002 line 225: no text and not an image. -/
def ExactElement.isEmpty (e : ExactElement) : Bool :=
  e.text.isEmpty && e.tagName != "img"

/-- areElementsExactlyIdentical, part 002 lines 665-689: tag names must
agree; images compare by src and alt, tables by whitespace-collapsed trimmed
markup, all other elements by whitespace-collapsed trimmed text.  The null
guards of the source concern absent operands, which the total record type
cannot produce. -/
def areElementsExactlyIdentical (el1 el2 : ExactElement) : Bool :=
  if el1.tagName != el2.tagName then false
  else if el1.isImage && el2.isImage then
    el1.src == el2.src && el1.alt == el2.alt
  else if el1.isTable && el2.isTable then
    collapseThenTrim el1.html == collapseThenTrim el2.html
  else
    collapseThenTrim el1.text == collapseThenTrim el2.text

/-- The fuzzy similarity threshold of part 002 line 700, the literal 0.7 of
the source. -/
def fuzzyThreshold : ℚ := 7 / 10

/-- areElementsStructurallySimilar, part 002 lines 691-701: same tag name,
neither image nor table on either side, and text similarity strictly above
the fixed threshold. -/
def areElementsStructurallySimilar (el1 el2 : ExactElement) : Bool :=
  if el1.tagName != el2.tagName then false
  else if el1.isImage || el2.isImage || el1.isTable || el2.isTable then false
  else decide (fuzzyThreshold < getTextSimilarity el1.text el2.text)

/-- Match type of an alignment record; the source uses the strings match,
leftOnly and rightOnly (matched stands for the reserved word match). -/
inductive MatchType
  | matched
  | leftOnly
  | rightOnly
deriving DecidableEq

/-- AlignmentRecord, part 002 lines 320, 345 and 351. -/
structure AlignmentRecord where
  leftIndex : Option Nat
  rightIndex : Option Nat
  matchType : MatchType
deriving DecidableEq

/-- State shared by the two matching passes: the record list built so far
and the two used-index sets (JavaScript Set objects, modelled as lists with
membership). -/
structure AlignState where
  records : List AlignmentRecord
  leftUsed : List Nat
  rightUsed : List Nat
deriving DecidableEq

/-- Inner scan of one matching pass: the first right index, counting from j,
that is not yet used and satisfies the pass predicate against the given left
element.  In the source the inner forEach visits every pair but skips pairs
whose side is already used, and marking the left index used ends its
effective scan, so the first such index is the one paired (part 002 lines
316-324 and 331-339). -/
def findFirstRightAux (pred : ExactElement → ExactElement → Bool) (le : ExactElement) :
    List ExactElement → Nat → List Nat → Option Nat
  | [], _, _ => Option.none
  | re :: rs, j, used =>
    if !used.contains j && pred le re then some j
    else findFirstRightAux pred le rs (j + 1) used

/-- Scan a full right list from index zero. -/
def findFirstRight (pred : ExactElement → ExactElement → Bool) (le : ExactElement)
    (R : List ExactElement) (used : List Nat) : Option Nat :=
  findFirstRightAux pred le R 0 used

/-- Outer loop of one matching pass over the left elements, part 002 lines
315-325 (exact pass) and 328-340 (fuzzy pass); both passes share this shape
and differ only in the pairing predicate.  A left index already used is
skipped; otherwise the first free matching right index is claimed and a
match record is appended. -/
def alignPassAux (pred : ExactElement → ExactElement → Bool) (R : List ExactElement) :
    List ExactElement → Nat → AlignState → AlignState
  | [], _, s => s
  | le :: ls, i, s =>
    if s.leftUsed.contains i then alignPassAux pred R ls (i + 1) s
    else
      match findFirstRight pred le R s.rightUsed with
      | some j =>
        alignPassAux pred R ls (i + 1)
          ⟨s.records ++ [⟨some i, some j, MatchType.matched⟩], i :: s.leftUsed, j :: s.rightUsed⟩
      | Option.none => alignPassAux pred R ls (i + 1) s

/-- One full matching pass. -/
def alignPass (pred : ExactElement → ExactElement → Bool)
    (L R : List ExactElement) (s : AlignState) : AlignState :=
  alignPassAux pred R L 0 s

/-- Residual left-only records, part 002 lines 343-347: every unused left
index, in document order. -/
def residualLeft (leftUsed : List Nat) (n : Nat) : List AlignmentRecord :=
  (List.range n).filterMap fun i =>
    if leftUsed.contains i then Option.none
    else some ⟨some i, Option.none, MatchType.leftOnly⟩

/-- Residual right-only records, part 002 lines 349-353. -/
def residualRight (rightUsed : List Nat) (n : Nat) : List AlignmentRecord :=
  (List.range n).filterMap fun j =>
    if rightUsed.contains j then Option.none
    else some ⟨Option.none, some j, MatchType.rightOnly⟩

/-- State after the exact pass started from the empty state. -/
def exactPassState (L R : List ExactElement) : AlignState :=
  alignPass areElementsExactlyIdentical L R ⟨[], [], []⟩

/-- State after the fuzzy pass continued from the exact pass. -/
def fuzzyPassState (L R : List ExactElement) : AlignState :=
  alignPass areElementsStructurallySimilar L R (exactPassState L R)

/-- The unsorted alignment: exact matches, then fuzzy matches, then the two
residual groups, part 002 lines 309-353. -/
def buildAlignment (L R : List ExactElement) : List AlignmentRecord :=
  (fuzzyPassState L R).records
    ++ residualLeft (fuzzyPassState L R).leftUsed L.length
    ++ residualRight (fuzzyPassState L R).rightUsed R.length

/-- Sort key of the final ordering, part 002 lines 356-359: the left index
when present, otherwise the right index plus the fixed offset 10000.  A
record with neither index is never constructed; getD 0 renders that dead
branch total. -/
def sortKey (r : AlignmentRecord) : Nat :=
  match r.leftIndex with
  | some i => i
  | Option.none => r.rightIndex.getD 0 + 10000

/-- The comparison relation of the final sort. -/
def alignLE (a b : AlignmentRecord) : Prop :=
  sortKey a ≤ sortKey b

instance : DecidableRel alignLE :=
  fun a b => Nat.decLe (sortKey a) (sortKey b)

instance : IsTotal AlignmentRecord alignLE :=
  ⟨fun a b => Nat.le_total (sortKey a) (sortKey b)⟩

instance : IsTrans AlignmentRecord alignLE :=
  ⟨fun _ _ _ h1 h2 => Nat.le_trans h1 h2⟩

/-- createExactAlignment, part 002 lines 309-361: the three passes followed
by the ascending sort on the key.  The ECMAScript sort is stable and the
comparator subtracts keys, so a stable insertion sort on the key order
produces the identical list. -/
def createExactAlignment (L R : List ExactElement) : List AlignmentRecord :=
  List.insertionSort alignLE (buildAlignment L R)

/-- A processed unit of the exact-mutual pipeline: the original element, or
a placeholder remembering which element it stands in for.  The mutualHtml
rendering is platform work inspected by no claim and is omitted. -/
structure ExactProcessed where
  elem : Option ExactElement
  highlight : Highlight
  placeholderFor : Option ExactElement
deriving DecidableEq

/-- createExactSpacePlaceholder, part 002 lines 364-386; the copied style
and dimension snapshots are omitted with the element model. -/
def createExactSpacePlaceholder (originalElement : ExactElement) (changeType : String) :
    ExactProcessed :=
  ⟨Option.none,
   if changeType == "added" then Highlight.placeholderAdded else Highlight.placeholderRemoved,
   some originalElement⟩

/-- Accumulator of performExactElementComparison: both processed streams and
the three counters of part 002 line 247. -/
structure ExactAcc where
  leftProcessed : List ExactProcessed
  rightProcessed : List ExactProcessed
  additions : Nat
  deletions : Nat
  modifications : Nat
deriving DecidableEq

/-- Combine the contribution of one record with the rest. -/
def ExactAcc.prepend (h t : ExactAcc) : ExactAcc :=
  ⟨h.leftProcessed ++ t.leftProcessed, h.rightProcessed ++ t.rightProcessed,
   h.additions + t.additions, h.deletions + t.deletions, h.modifications + t.modifications⟩

/-- Per-record body of performExactElementComparison, part 002 lines
252-295.  A match record pushes nothing unless both lookups succeed (the
source guard at line 258).  A one-sided record with a failing lookup would
make the source fault inside the spread of the missing element; such records
never occur in an alignment produced by createExactAlignment (proved below),
and the model makes the dead branch contribute nothing. -/
def processAlignmentRecord (L R : List ExactElement) (r : AlignmentRecord) : ExactAcc :=
  match r.matchType with
  | MatchType.matched =>
    match r.leftIndex.bind (fun i => L[i]?), r.rightIndex.bind (fun j => R[j]?) with
    | some le, some re =>
      if areElementsExactlyIdentical le re then
        ⟨[⟨some le, Highlight.none, Option.none⟩],
         [⟨some re, Highlight.none, Option.none⟩], 0, 0, 0⟩
      else
        ⟨[⟨some le, Highlight.modified, Option.none⟩],
         [⟨some re, Highlight.modified, Option.none⟩], 0, 0, 1⟩
    | _, _ => ⟨[], [], 0, 0, 0⟩
  | MatchType.leftOnly =>
    match r.leftIndex.bind (fun i => L[i]?) with
    | some le =>
      ⟨[⟨some le, Highlight.removed, Option.none⟩],
       [createExactSpacePlaceholder le "removed"], 0, 1, 0⟩
    | Option.none => ⟨[], [], 0, 0, 0⟩
  | MatchType.rightOnly =>
    match r.rightIndex.bind (fun j => R[j]?) with
    | some re =>
      ⟨[createExactSpacePlaceholder re "added"],
       [⟨some re, Highlight.added, Option.none⟩], 1, 0, 0⟩
    | Option.none => ⟨[], [], 0, 0, 0⟩

/-- Fold of the alignment walk, part 002 lines 252-295. -/
def performExactAux (L R : List ExactElement) : List AlignmentRecord → ExactAcc
  | [] => ⟨[], [], 0, 0, 0⟩
  | r :: rs => (processAlignmentRecord L R r).prepend (performExactAux L R rs)

/-- Output of performExactElementComparison. -/
structure ExactComparisonOutput where
  leftProcessed : List ExactProcessed
  rightProcessed : List ExactProcessed
  summary : Summary
deriving DecidableEq

/-- performExactElementComparison, part 002 lines 244-306: walk the
alignment and report changes as additions plus deletions plus modifications
(line 303). -/
def performExactElementComparison (L R : List ExactElement) : ExactComparisonOutput :=
  let t := performExactAux L R (createExactAlignment L R)
  ⟨t.leftProcessed, t.rightProcessed,
   ⟨t.additions, t.deletions, t.additions + t.deletions + t.modifications⟩⟩

/-- Preview truncation of the inline placeholder path of the exact-mutual
pipeline, part 002 line 643: thirty characters, ellipsis when longer. -/
def inlinePlaceholderPreview (text : String) : String :=
  text.take 30 ++ (if 30 < text.length then "..." else "")

/-- Preview truncation of the whole-unit text placeholder path of the
exact-mutual pipeline, part 002 line 503: fifty characters, ellipsis when
longer. -/
def exactDimensionPlaceholderPreview (text : String) : String :=
  text.take 50 ++ (if 50 < text.length then "..." else "")

/-! ## Claim-side notions and concrete instances

The definitions below do not embed source code: the first group states
notions in the words of the spec and the claims (clearly named as such), and
the second group is concrete data used by witness and counterexample
theorems. -/

/-- Whitespace normalisation in the words of the spec (section 3, normalized
text is whitespace-collapsed and trimmed); used to state the premises of the
claims that speak of whitespace normalization. -/
def specWhitespaceNormalize (t : String) : String :=
  jsTrim (collapseWs t)

/-- Number of records of a given match type in an alignment. -/
def countMatchType (mt : MatchType) (l : List AlignmentRecord) : Nat :=
  l.countP fun r => r.matchType == mt

/-- Number of match records whose two elements are not exactly identical;
this is what the modifications counter of the exact-mutual pipeline tracks. -/
def modifiedMatchCount (L R : List ExactElement) (l : List AlignmentRecord) : Nat :=
  l.countP fun r =>
    r.matchType == MatchType.matched &&
      (match r.leftIndex.bind (fun i => L[i]?), r.rightIndex.bind (fun j => R[j]?) with
       | some le, some re => !areElementsExactlyIdentical le re
       | _, _ => false)

/-- Number of positions the format-preserving loop classifies as
format-changed: both elements present and non-empty, equal texts, differing
key styles. -/
def formatChangedCount : List FormattedElement → List FormattedElement → Nat
  | l :: ls, r :: rs =>
    (if !l.isEmpty && !r.isEmpty && areTextsEqual l.text r.text
        && hasFormattingDifferences l r then 1 else 0)
      + formatChangedCount ls rs
  | _, _ => 0

/-- Well-formedness of one alignment record relative to the two element
lists: the indices demanded by the match type are present and in range. -/
def RecordWF (L R : List ExactElement) (r : AlignmentRecord) : Prop :=
  (r.matchType = MatchType.matched →
    ∃ i j, r.leftIndex = some i ∧ r.rightIndex = some j ∧ i < L.length ∧ j < R.length)
  ∧ (r.matchType = MatchType.leftOnly →
    ∃ i, r.leftIndex = some i ∧ r.rightIndex = Option.none ∧ i < L.length)
  ∧ (r.matchType = MatchType.rightOnly →
    ∃ j, r.leftIndex = Option.none ∧ r.rightIndex = some j ∧ j < R.length)

/-- All left indices claimed by an alignment, in record order. -/
def claimedLeft (l : List AlignmentRecord) : List Nat :=
  l.filterMap fun r => r.leftIndex

/-- All right indices claimed by an alignment, in record order. -/
def claimedRight (l : List AlignmentRecord) : List Nat :=
  l.filterMap fun r => r.rightIndex

/-- No right-only record precedes a record that carries a left index. -/
def rightOnlyAfterLeft (l : List AlignmentRecord) : Prop :=
  l.Pairwise fun r1 r2 => r1.matchType = MatchType.rightOnly → r2.leftIndex = Option.none

/-- Number of positions the format-preserving loop classifies as an
addition because the left element is empty and the right one is not. -/
def addedEmptyPairCount : List FormattedElement → List FormattedElement → Nat
  | l :: ls, r :: rs =>
    (if l.isEmpty && !r.isEmpty then 1 else 0) + addedEmptyPairCount ls rs
  | _, _ => 0

/-- Number of positions the format-preserving loop classifies as a deletion
because the right element is empty and the left one is not. -/
def removedEmptyPairCount : List FormattedElement → List FormattedElement → Nat
  | l :: ls, r :: rs =>
    (if !l.isEmpty && r.isEmpty then 1 else 0) + removedEmptyPairCount ls rs
  | _, _ => 0

/-- Number of positions the format-preserving loop classifies as modified:
both elements present and non-empty with texts that do not agree. -/
def modifiedPairCount : List FormattedElement → List FormattedElement → Nat
  | l :: ls, r :: rs =>
    (if !l.isEmpty && !r.isEmpty && !areTextsEqual l.text r.text then 1 else 0)
      + modifiedPairCount ls rs
  | _, _ => 0

/-- Invariant carried through the matching passes: the used sets are
duplicate free, they list exactly the claimed indices of the records built
so far, every record satisfies the pass property, and every used index is in
range. -/
def StateInv (L R : List ExactElement) (Q : AlignmentRecord → Prop) (s : AlignState) : Prop :=
  s.leftUsed.Nodup ∧ s.rightUsed.Nodup
  ∧ List.Perm (claimedLeft s.records) s.leftUsed
  ∧ List.Perm (claimedRight s.records) s.rightUsed
  ∧ (∀ r ∈ s.records, Q r)
  ∧ (∀ i ∈ s.leftUsed, i < L.length)
  ∧ (∀ j ∈ s.rightUsed, j < R.length)

/-- The property every match record of a pass driven by a predicate
satisfies: it pairs in-range elements for which the predicate holds. -/
def MatchedBy (pred : ExactElement → ExactElement → Bool)
    (L R : List ExactElement) (r : AlignmentRecord) : Prop :=
  ∃ i j le re, r = ⟨some i, some j, MatchType.matched⟩
    ∧ L[i]? = some le ∧ R[j]? = some re ∧ pred le re = true

/-- Sample computed styles. -/
def plainStyles : ComputedStyles :=
  ⟨"Arial", "12pt", "400", "normal", "black", "white", "left", "normal", "0", "0", "none"⟩

/-- Sample computed styles differing from plainStyles in the font weight. -/
def boldStyles : ComputedStyles :=
  ⟨"Arial", "12pt", "700", "normal", "black", "white", "left", "normal", "0", "0", "none"⟩

/-- Sample paragraph formatting context. -/
def plainCtx : FormattingContext :=
  ⟨"p", "", "", plainStyles⟩

/-- Sample bold paragraph formatting context. -/
def boldCtx : FormattingContext :=
  ⟨"p", "", "", boldStyles⟩

/-- Sample element with text Hello. -/
def feHello : FormattedElement :=
  ⟨"Hello", "Hello", "<p>Hello</p>", 0, plainCtx⟩

/-- Sample element with text hello, lower-case. -/
def feHelloLower : FormattedElement :=
  ⟨"hello", "hello", "<p>hello</p>", 0, plainCtx⟩

/-- Sample element with text x. -/
def feX : FormattedElement :=
  ⟨"x", "x", "<p>x</p>", 0, plainCtx⟩

/-- Sample element with text y. -/
def feY : FormattedElement :=
  ⟨"y", "y", "<p>y</p>", 0, plainCtx⟩

/-- Sample element with text a and bold styles. -/
def feABold : FormattedElement :=
  ⟨"a", "a", "<p>a</p>", 1, boldCtx⟩

/-- Sample element with text a and plain styles. -/
def feAPlain : FormattedElement :=
  ⟨"a", "a", "<p>a</p>", 1, plainCtx⟩

/-- Document whose plain text carries a double space. -/
def docSpaced : HtmlDoc :=
  ⟨"<p>a  b</p>", "a  b", [⟨"a  b", "a  b", "<p>a  b</p>", 0, plainCtx⟩]⟩

/-- Document whose plain text carries a single space. -/
def docSingle : HtmlDoc :=
  ⟨"<p>a b</p>", "a b", [⟨"a b", "a b", "<p>a b</p>", 0, plainCtx⟩]⟩

/-- Document with paragraphs x and bold a. -/
def docXA : HtmlDoc :=
  ⟨"<p>x</p><p>a</p>", "xa", [feX, feABold]⟩

/-- Document with paragraphs y and plain a. -/
def docYA : HtmlDoc :=
  ⟨"<p>y</p><p>a</p>", "ya", [feY, feAPlain]⟩

/-- A comparison body that always fails, for exercising the fallback. -/
def failingSlow : HtmlDoc → HtmlDoc → Except CompError ComparisonResult :=
  fun _ _ => Except.error CompError.diffFailure

/-- Sample paragraph element of the exact-mutual pipeline. -/
def exP (t : String) : ExactElement :=
  ⟨t, "<p>" ++ t ++ "</p>", "p", "", ""⟩

/-- Sample image element of the exact-mutual pipeline. -/
def exImg : ExactElement :=
  ⟨"", "<img>", "img", "x.png", "photo"⟩

/-- Sixty identical characters, longer than both small truncation bounds. -/
def sixtyChars : String :=
  ⟨List.replicate 60 'a'⟩

/-- An arbitrary renderer used to instantiate the universally quantified
renderer parameter of the entry point in witness theorems. -/
def trivialRender : HtmlDoc → List ProcessedElement → String :=
  fun _ _ => ""

/-- Sample empty element with plain styles. -/
def feEmptyPlain : FormattedElement :=
  ⟨"", "", "<p></p>", 0, plainCtx⟩

/-- Sample empty element with bold styles. -/
def feEmptyBold : FormattedElement :=
  ⟨"", "", "<p></p>", 0, boldCtx⟩

/-- A left document of 10002 identical paragraphs, one more than the fixed
sort offset of the final ordering can shield. -/
def bigL : List ExactElement :=
  List.replicate 10002 (exP "alpha")

/-! ## Theorems -/

theorem take_eq_self_of_le {t : String} {n : Nat} (h : t.length ≤ n) : t.take n = t := by
  apply String.ext
  simp only [String.data_take]
  exact List.take_of_length_le h

theorem append_empty_str (t : String) : t ++ "" = t := by
  apply String.ext
  simp

/-- C10 (amended): each placeholder preview path truncates at its own fixed
constant and appends an ellipsis exactly when the text is longer: thirty
characters in the inline path and fifty in the whole-unit text path of the
exact-mutual pipeline, one hundred in the whole-unit path of the
format-preserving pipeline. -/
theorem c10_truncation_constants (t : String) :
    (t.length ≤ 30 → inlinePlaceholderPreview t = t)
  ∧ (30 < t.length → inlinePlaceholderPreview t = t.take 30 ++ "...")
  ∧ (t.length ≤ 50 → exactDimensionPlaceholderPreview t = t)
  ∧ (50 < t.length → exactDimensionPlaceholderPreview t = t.take 50 ++ "...")
  ∧ (t.length ≤ 100 → createFormattedPlaceholderPreview t = t)
  ∧ (100 < t.length → createFormattedPlaceholderPreview t = t.take 100 ++ "...") := by
  refine ⟨fun h => ?_, fun h => ?_, fun h => ?_, fun h => ?_, fun h => ?_, fun h => ?_⟩
  · rw [inlinePlaceholderPreview, if_neg (by omega), take_eq_self_of_le h, append_empty_str]
  · rw [inlinePlaceholderPreview, if_pos h]
  · rw [exactDimensionPlaceholderPreview, if_neg (by omega), take_eq_self_of_le h,
      append_empty_str]
  · rw [exactDimensionPlaceholderPreview, if_pos h]
  · rw [createFormattedPlaceholderPreview, if_neg (by omega)]
  · rw [createFormattedPlaceholderPreview, if_pos h]

/-- Witness for C10 at concrete inputs: a five character text passes through
every path unchanged, and the sixty character text is truncated at thirty in
the inline path. -/
theorem c10_truncation_constants_witness :
    inlinePlaceholderPreview "abcde" = "abcde"
  ∧ inlinePlaceholderPreview sixtyChars = sixtyChars.take 30 ++ "..." := by
  exact ⟨(c10_truncation_constants "abcde").1 (by decide),
    (c10_truncation_constants sixtyChars).2.1 (by decide)⟩

set_option maxRecDepth 4000 in
/-- Counterexample for C10 as stated: within the exact-mutual pipeline the
inline placeholder preview and the whole-unit placeholder preview of the
same sixty character text differ, so the truncation length is not one
single constant shared by the two paths. -/
theorem c10_counterexample :
    inlinePlaceholderPreview sixtyChars ≠ exactDimensionPlaceholderPreview sixtyChars := by
  decide

theorem diffMainFuel_valid (fuel : Nat) : ∀ as bs : List Char,
    sourceChars (diffMainFuel fuel as bs) = as
      ∧ targetChars (diffMainFuel fuel as bs) = bs := by
  induction fuel with
  | zero =>
    intro as bs
    match as, bs with
    | [], [] => simp [diffMainFuel, sourceChars, targetChars]
    | [], _ :: _ => simp [diffMainFuel, sourceChars, targetChars]
    | _ :: _, [] => simp [diffMainFuel, sourceChars, targetChars]
    | _ :: _, _ :: _ => simp [diffMainFuel, sourceChars, targetChars]
  | succ n ih =>
    intro as bs
    match as, bs with
    | [], [] => simp [diffMainFuel, sourceChars, targetChars]
    | [], _ :: _ => simp [diffMainFuel, sourceChars, targetChars]
    | _ :: _, [] => simp [diffMainFuel, sourceChars, targetChars]
    | a :: as, b :: bs =>
      by_cases hab : a = b
      · have hrec := ih as bs
        subst hab
        simp [diffMainFuel, sourceChars, targetChars, hrec.1, hrec.2]
      · have h1 := ih as (b :: bs)
        have h2 := ih (a :: as) bs
        rw [diffMainFuel]
        simp only [if_neg hab]
        split
        · simp [sourceChars, targetChars, h1.1, h1.2]
        · simp [sourceChars, targetChars, h2.1, h2.2]

theorem sourceChars_diffMain (as bs : List Char) : sourceChars (diffMain as bs) = as :=
  (diffMainFuel_valid (as.length + bs.length) as bs).1

theorem targetChars_diffMain (as bs : List Char) : targetChars (diffMain as bs) = bs :=
  (diffMainFuel_valid (as.length + bs.length) as bs).2

theorem equalTotal_le_sourceChars (d : List DiffRec) :
    equalTotal d ≤ (sourceChars d).length := by
  induction d with
  | nil => simp [equalTotal, sourceChars]
  | cons r rs ih =>
    by_cases h1 : r.op = DiffOp.equal
    · have h2 : ¬r.op = DiffOp.insert := by rw [h1]; intro hc; cases hc
      simp only [equalTotal, sourceChars, if_pos h1, if_neg h2, List.length_append]
      omega
    · simp only [equalTotal, sourceChars, if_neg h1, List.length_append]
      omega

theorem equalTotal_le_targetChars (d : List DiffRec) :
    equalTotal d ≤ (targetChars d).length := by
  induction d with
  | nil => simp [equalTotal, targetChars]
  | cons r rs ih =>
    by_cases h1 : r.op = DiffOp.equal
    · have h2 : ¬r.op = DiffOp.delete := by rw [h1]; intro hc; cases hc
      simp only [equalTotal, targetChars, if_pos h1, if_neg h2, List.length_append]
      omega
    · simp only [equalTotal, targetChars, if_neg h1, List.length_append]
      omega

theorem equalTotal_diffMain_le_left (as bs : List Char) :
    equalTotal (diffMain as bs) ≤ as.length := by
  have h := equalTotal_le_sourceChars (diffMain as bs)
  rwa [sourceChars_diffMain] at h

theorem equalTotal_diffMain_le_right (as bs : List Char) :
    equalTotal (diffMain as bs) ≤ bs.length := by
  have h := equalTotal_le_targetChars (diffMain as bs)
  rwa [targetChars_diffMain] at h

theorem data_eq_nil_of_isEmpty {s : String} (h : s.isEmpty = true) : s.data = [] := by
  have := (String.isEmpty_iff s).mp h
  rw [this]

theorem length_pos_of_not_isEmpty {s : String} (h : s.isEmpty = false) : 0 < s.length := by
  by_contra hc
  have hz : s.length = 0 := by omega
  have : s.data = [] := List.length_eq_zero.mp hz
  have : s = "" := String.ext this
  rw [this] at h
  cases h

theorem data_length_eq (s : String) : s.data.length = s.length := rfl

/-- C7: the similarity is the ratio of the unchanged character total of the
diff to the larger length whenever at least one text is non-empty, it is one
when both texts are empty and zero when exactly one is, and it always lies
between zero and one. -/
theorem c7_similarity_ratio (a b : String) :
    (¬(a.isEmpty = true ∧ b.isEmpty = true) →
       getTextSimilarity a b
         = (equalTotal (diffMain a.data b.data) : ℚ) / ((max a.length b.length : Nat) : ℚ))
  ∧ (a.isEmpty = true → b.isEmpty = true → getTextSimilarity a b = 1)
  ∧ (a.isEmpty = true → b.isEmpty = false → getTextSimilarity a b = 0)
  ∧ (a.isEmpty = false → b.isEmpty = true → getTextSimilarity a b = 0)
  ∧ 0 ≤ getTextSimilarity a b ∧ getTextSimilarity a b ≤ 1 := by
  by_cases ha : a.isEmpty = true
  · by_cases hb : b.isEmpty = true
    · have hs : getTextSimilarity a b = 1 := by simp [getTextSimilarity, ha, hb]
      refine ⟨fun hcon => absurd ⟨ha, hb⟩ hcon, fun _ _ => hs,
        fun _ hb2 => absurd hb2 (by simp [hb]), fun ha2 _ => absurd ha2 (by simp [ha]),
        ?_, ?_⟩
      · rw [hs]
        norm_num
      · rw [hs]
    · have hb2 : b.isEmpty = false := eq_false_of_ne_true hb
      have had : a.data = [] := data_eq_nil_of_isEmpty ha
      have hs : getTextSimilarity a b = 0 := by simp [getTextSimilarity, ha, hb2]
      have hratio : getTextSimilarity a b
          = (equalTotal (diffMain a.data b.data) : ℚ) / ((max a.length b.length : Nat) : ℚ) := by
        rw [hs, had]
        have hbpos : 0 < b.length := length_pos_of_not_isEmpty hb2
        have hbd : b.data.length = b.length := data_length_eq b
        match hcase : b.data with
        | [] =>
          rw [hcase] at hbd
          simp at hbd
          omega
        | c :: cs =>
          rw [diffMain]
          simp [diffMainFuel, equalTotal]
      refine ⟨fun _ => hratio, fun _ hb3 => absurd hb3 (by simp [hb2]), fun _ _ => hs,
        fun ha2 _ => absurd ha2 (by simp [ha]), ?_, ?_⟩
      · rw [hs]
      · rw [hs]
        norm_num
  · have ha2 : a.isEmpty = false := eq_false_of_ne_true ha
    have hapos : 0 < a.length := length_pos_of_not_isEmpty ha2
    by_cases hb : b.isEmpty = true
    · have hbd : b.data = [] := data_eq_nil_of_isEmpty hb
      have hs : getTextSimilarity a b = 0 := by simp [getTextSimilarity, ha2, hb]
      have hratio : getTextSimilarity a b
          = (equalTotal (diffMain a.data b.data) : ℚ) / ((max a.length b.length : Nat) : ℚ) := by
        rw [hs, hbd]
        have had : a.data.length = a.length := data_length_eq a
        match hcase : a.data with
        | [] =>
          rw [hcase] at had
          simp at had
          omega
        | c :: cs =>
          rw [diffMain]
          simp [diffMainFuel, equalTotal]
      refine ⟨fun _ => hratio, fun ha3 _ => absurd ha3 (by simp [ha2]),
        fun ha3 _ => absurd ha3 (by simp [ha2]), fun _ _ => hs, ?_, ?_⟩
      · rw [hs]
      · rw [hs]
        norm_num
    · have hb2 : b.isEmpty = false := eq_false_of_ne_true hb
      have hpos : 0 < max a.length b.length := Nat.lt_of_lt_of_le hapos (Nat.le_max_left _ _)
      have hs : getTextSimilarity a b
          = (equalTotal (diffMain a.data b.data) : ℚ) / ((max a.length b.length : Nat) : ℚ) := by
        simp [getTextSimilarity, ha2, hb2, hpos]
      have hle : equalTotal (diffMain a.data b.data) ≤ max a.length b.length := by
        have h1 := equalTotal_diffMain_le_left a.data b.data
        rw [data_length_eq] at h1
        exact Nat.le_trans h1 (Nat.le_max_left _ _)
      refine ⟨fun _ => hs, fun ha3 _ => absurd ha3 (by simp [ha2]),
        fun ha3 _ => absurd ha3 (by simp [ha2]), fun _ hb3 => absurd hb3 (by simp [hb2]),
        ?_, ?_⟩
      · rw [hs]
        apply div_nonneg
        · exact_mod_cast Nat.zero_le _
        · exact_mod_cast Nat.zero_le _
      · rw [hs, div_le_one (by exact_mod_cast hpos)]
        exact_mod_cast hle

/-- Witness for C7 at concrete inputs. -/
theorem c7_similarity_ratio_witness :
    getTextSimilarity "ab" "b"
      = (equalTotal (diffMain "ab".data "b".data) : ℚ) / ((max "ab".length "b".length : Nat) : ℚ)
  ∧ getTextSimilarity "" "" = 1
  ∧ getTextSimilarity "" "b" = 0
  ∧ getTextSimilarity "ab" "" = 0
  ∧ 0 ≤ getTextSimilarity "ab" "b" ∧ getTextSimilarity "ab" "b" ≤ 1 := by
  refine ⟨(c7_similarity_ratio "ab" "b").1 (by decide),
    (c7_similarity_ratio "" "").2.1 (by decide) (by decide),
    (c7_similarity_ratio "" "b").2.2.1 (by decide) (by decide),
    (c7_similarity_ratio "ab" "").2.2.2.1 (by decide) (by decide),
    (c7_similarity_ratio "ab" "b").2.2.2.2.1,
    (c7_similarity_ratio "ab" "b").2.2.2.2.2⟩

/-- C5 (amended): the comparator classifies every aligned pair by emptiness
first and text and style agreement second: two empty elements emit no
highlight and touch no counter; an empty left against a non-empty right
emits placeholder-added and added and counts one addition; a non-empty left
against an empty right emits removed and placeholder-removed and counts one
deletion; two non-empty elements whose texts agree under the source
normalisation (whitespace-collapsed, trimmed and lower-cased) emit no
highlight when the key styles agree and format-changed on both sides when
one differs; otherwise both sides are marked modified. -/
theorem c5_pair_classification (l r : FormattedElement) :
    (l.isEmpty = true → r.isEmpty = true →
       processBothPresent l r =
         ⟨[⟨some l, Highlight.none, Option.none, Option.none⟩],
          [⟨some r, Highlight.none, Option.none, Option.none⟩], 0, 0⟩)
  ∧ (l.isEmpty = true → r.isEmpty = false →
       processBothPresent l r =
         ⟨[⟨some l, Highlight.placeholderAdded, some r.text, some r.formattingContext⟩],
          [⟨some r, Highlight.added, Option.none, Option.none⟩], 1, 0⟩)
  ∧ (l.isEmpty = false → r.isEmpty = true →
       processBothPresent l r =
         ⟨[⟨some l, Highlight.removed, Option.none, Option.none⟩],
          [⟨some r, Highlight.placeholderRemoved, some l.text, some l.formattingContext⟩],
          0, 1⟩)
  ∧ (l.isEmpty = false → r.isEmpty = false →
       areTextsEqual l.text r.text = true → hasFormattingDifferences l r = false →
       processBothPresent l r =
         ⟨[⟨some l, Highlight.none, Option.none, Option.none⟩],
          [⟨some r, Highlight.none, Option.none, Option.none⟩], 0, 0⟩)
  ∧ (l.isEmpty = false → r.isEmpty = false →
       areTextsEqual l.text r.text = true → hasFormattingDifferences l r = true →
       processBothPresent l r =
         ⟨[⟨some l, Highlight.formatChanged, Option.none, Option.none⟩],
          [⟨some r, Highlight.formatChanged, Option.none, Option.none⟩], 1, 0⟩)
  ∧ (l.isEmpty = false → r.isEmpty = false →
       areTextsEqual l.text r.text = false →
       processBothPresent l r =
         ⟨[⟨some l, Highlight.modified, Option.none, Option.none⟩],
          [⟨some r, Highlight.modified, Option.none, Option.none⟩], 1, 1⟩) := by
  refine ⟨fun h1 h2 => ?_, fun h1 h2 => ?_, fun h1 h2 => ?_,
    fun h1 h2 he hf => ?_, fun h1 h2 he hf => ?_, fun h1 h2 he => ?_⟩
  · simp [processBothPresent, h1, h2]
  · simp [processBothPresent, h1, h2]
  · simp [processBothPresent, h1, h2]
  · simp [processBothPresent, h1, h2, he, hf]
  · simp [processBothPresent, h1, h2, he, hf]
  · simp [processBothPresent, h1, h2, he]

/-- Witness for C5 at concrete inputs: two empty elements with differing
styles yield no highlight, and non-empty differing texts yield modified on
both sides. -/
theorem c5_pair_classification_witness :
    processBothPresent feEmptyPlain feEmptyBold =
      ⟨[⟨some feEmptyPlain, Highlight.none, Option.none, Option.none⟩],
       [⟨some feEmptyBold, Highlight.none, Option.none, Option.none⟩], 0, 0⟩
  ∧ processBothPresent feX feY =
      ⟨[⟨some feX, Highlight.modified, Option.none, Option.none⟩],
       [⟨some feY, Highlight.modified, Option.none, Option.none⟩], 1, 1⟩ :=
  ⟨(c5_pair_classification feEmptyPlain feEmptyBold).1 (by decide) (by decide),
   (c5_pair_classification feX feY).2.2.2.2.2 (by decide) (by decide) (by decide)⟩

/-- Counterexample for C5 as stated: the texts Hello and hello are not
equal after the normalisation the claim names (whitespace collapse and trim
only), so the claim demands modified, yet the comparator also lower-cases
and emits no highlight on both sides; and two empty elements with differing
key styles have equal texts under any normalisation, so the claim demands
format-changed, yet the emptiness branch emits no highlight on both sides. -/
theorem c5_counterexample :
    (specWhitespaceNormalize feHello.text ≠ specWhitespaceNormalize feHelloLower.text
  ∧ (processBothPresent feHello feHelloLower).leftProcessed
      = [⟨some feHello, Highlight.none, Option.none, Option.none⟩]
  ∧ (processBothPresent feHello feHelloLower).rightProcessed
      = [⟨some feHelloLower, Highlight.none, Option.none, Option.none⟩])
  ∧ (specWhitespaceNormalize feEmptyPlain.text
      = specWhitespaceNormalize feEmptyBold.text
  ∧ hasFormattingDifferences feEmptyPlain feEmptyBold = true
  ∧ (processBothPresent feEmptyPlain feEmptyBold).leftProcessed
      = [⟨some feEmptyPlain, Highlight.none, Option.none, Option.none⟩]
  ∧ (processBothPresent feEmptyPlain feEmptyBold).rightProcessed
      = [⟨some feEmptyBold, Highlight.none, Option.none, Option.none⟩]) := by
  exact ⟨⟨by decide, by decide, by decide⟩, by decide, by decide, by decide, by decide⟩

/-- C1 (amended): for every highlight renderer, when the trimmed extracted
plain texts of the two documents coincide, the entry point returns both
inputs unchanged with a zero summary and an empty detailed report,
performing no further work. -/
theorem c1_fast_path_trim (render : HtmlDoc → List ProcessedElement → String)
    (L R : HtmlDoc)
    (h : jsTrim (extractPlainText L) = jsTrim (extractPlainText R)) :
    compareHtmlDocuments render L R = verbatimResult L R
  ∧ (compareHtmlDocuments render L R).leftDiffs = [⟨"equal", L.raw⟩]
  ∧ (compareHtmlDocuments render L R).rightDiffs = [⟨"equal", R.raw⟩]
  ∧ (compareHtmlDocuments render L R).summary = ⟨0, 0, 0⟩
  ∧ (compareHtmlDocuments render L R).detailed = ⟨[], [], []⟩ := by
  have hmain : compareHtmlDocuments render L R = verbatimResult L R := by
    simp [compareHtmlDocuments, compareHtmlDocumentsWith, h]
  refine ⟨hmain, ?_, ?_, ?_, ?_⟩ <;> rw [hmain] <;> rfl

/-- Witness for C1 at a concrete input: a document compared against itself
takes the fast path. -/
theorem c1_fast_path_trim_witness :
    compareHtmlDocuments trivialRender docSpaced docSpaced
      = verbatimResult docSpaced docSpaced :=
  (c1_fast_path_trim trivialRender docSpaced docSpaced rfl).1

/-- Counterexample for C1 as stated: two documents whose plain texts differ
only in an inner double space are identical after whitespace normalisation
(collapse and trim, as the claim words it), so the claimed premise holds,
yet the trim-only guard is false, and the comparison runs the full
pipeline, producing a non-empty detailed report instead of the empty one
the claim requires, whatever the highlight renderer. -/
theorem c1_counterexample :
    specWhitespaceNormalize (extractPlainText docSpaced)
      = specWhitespaceNormalize (extractPlainText docSingle)
  ∧ (jsTrim (extractPlainText docSpaced)
      == jsTrim (extractPlainText docSingle)) = false
  ∧ (compareHtmlDocuments trivialRender docSpaced docSingle).detailed.lines ≠ [] := by
  refine ⟨by decide, by decide, ?_⟩
  show (generateFormattedDetailedReport docSpaced.elements docSingle.elements).lines ≠ []
  decide

/-- C2: any failure raised by the comparison body is caught at the entry
point, which then resolves with both original documents verbatim, a zero
summary and an empty detailed report; the entry point is a total function
of its inputs, so the returned promise never rejects. -/
theorem c2_fail_soft (slow : HtmlDoc → HtmlDoc → Except CompError ComparisonResult)
    (L R : HtmlDoc) (e : CompError) (h : slow L R = Except.error e) :
    compareHtmlDocumentsWith slow L R = verbatimResult L R
  ∧ (compareHtmlDocumentsWith slow L R).leftDiffs = [⟨"equal", L.raw⟩]
  ∧ (compareHtmlDocumentsWith slow L R).rightDiffs = [⟨"equal", R.raw⟩]
  ∧ (compareHtmlDocumentsWith slow L R).summary = ⟨0, 0, 0⟩
  ∧ (compareHtmlDocumentsWith slow L R).detailed = ⟨[], [], []⟩ := by
  have hmain : compareHtmlDocumentsWith slow L R = verbatimResult L R := by
    unfold compareHtmlDocumentsWith
    split
    · rfl
    · rw [h]
  refine ⟨hmain, ?_, ?_, ?_, ?_⟩ <;> rw [hmain] <;> rfl

/-- Witness for C2 at a concrete input: a body that always fails still
resolves to the verbatim fallback. -/
theorem c2_fail_soft_witness :
    compareHtmlDocumentsWith failingSlow docSpaced docSingle
      = verbatimResult docSpaced docSingle :=
  (c2_fail_soft failingSlow docSpaced docSingle CompError.diffFailure rfl).1

/-- The summary and the detailed report of the entry point do not depend on
the highlight renderer: only the two output markup strings do. -/
theorem compareHtmlDocuments_render_independent
    (render render2 : HtmlDoc → List ProcessedElement → String) (L R : HtmlDoc) :
    (compareHtmlDocuments render L R).summary
      = (compareHtmlDocuments render2 L R).summary
  ∧ (compareHtmlDocuments render L R).detailed
      = (compareHtmlDocuments render2 L R).detailed := by
  refine ⟨?_, ?_⟩ <;>
    (unfold compareHtmlDocuments compareHtmlDocumentsWith
     split
     · rfl
     · rfl)

theorem str_beq_comm (a b : String) : (a == b) = (b == a) := by
  by_cases h : a = b
  · subst h
    rfl
  · rw [beq_eq_false_iff_ne.mpr h, beq_eq_false_iff_ne.mpr (Ne.symm h)]

theorem str_bne_comm (a b : String) : (a != b) = (b != a) := by
  simp only [bne, str_beq_comm]

theorem areTextsEqual_symm (a b : String) : areTextsEqual a b = areTextsEqual b a := by
  simp only [areTextsEqual, str_beq_comm]

theorem hasFormattingDifferences_symm (l r : FormattedElement) :
    hasFormattingDifferences l r = hasFormattingDifferences r l := by
  simp only [hasFormattingDifferences]
  rw [str_bne_comm l.formattingContext.computedStyles.fontFamily,
    str_bne_comm l.formattingContext.computedStyles.fontSize,
    str_bne_comm l.formattingContext.computedStyles.fontWeight,
    str_bne_comm l.formattingContext.computedStyles.fontStyle,
    str_bne_comm l.formattingContext.computedStyles.color,
    str_bne_comm l.formattingContext.computedStyles.textAlign]

theorem fcHead_symm (l r : FormattedElement) :
    (if !l.isEmpty && !r.isEmpty && areTextsEqual l.text r.text
        && hasFormattingDifferences l r then (1 : Nat) else 0)
      = (if !r.isEmpty && !l.isEmpty && areTextsEqual r.text l.text
          && hasFormattingDifferences r l then (1 : Nat) else 0) := by
  rw [areTextsEqual_symm, hasFormattingDifferences_symm]
  by_cases h1 : l.isEmpty
  · simp [h1]
  · by_cases h2 : r.isEmpty
    · simp [h2]
    · simp [h1, h2]

theorem formatChangedCount_symm (L R : List FormattedElement) :
    formatChangedCount L R = formatChangedCount R L := by
  induction L generalizing R with
  | nil =>
    cases R with
    | nil => rfl
    | cons r rs => rfl
  | cons l ls ih =>
    cases R with
    | nil => rfl
    | cons r rs =>
      simp only [formatChangedCount]
      rw [ih rs, fcHead_symm]

theorem processBothPresent_mirror (l r : FormattedElement) :
    (processBothPresent l r).additions
      = (processBothPresent r l).deletions
        + (if !l.isEmpty && !r.isEmpty && areTextsEqual l.text r.text
            && hasFormattingDifferences l r then 1 else 0) := by
  by_cases hl : l.isEmpty
  · by_cases hr : r.isEmpty
    · simp [processBothPresent, hl, hr]
    · have hr2 : r.isEmpty = false := eq_false_of_ne_true hr
      simp [processBothPresent, hl, hr2]
  · have hl2 : l.isEmpty = false := eq_false_of_ne_true hl
    by_cases hr : r.isEmpty
    · simp [processBothPresent, hl2, hr]
    · have hr2 : r.isEmpty = false := eq_false_of_ne_true hr
      by_cases he : areTextsEqual l.text r.text
      · have he2 : areTextsEqual r.text l.text = true := by rw [areTextsEqual_symm]; exact he
        by_cases hf : hasFormattingDifferences l r
        · have hf2 : hasFormattingDifferences r l = true := by
            rw [hasFormattingDifferences_symm]; exact hf
          simp [processBothPresent, hl2, hr2, he, he2, hf, hf2]
        · have hf1 : hasFormattingDifferences l r = false := eq_false_of_ne_true hf
          have hf2 : hasFormattingDifferences r l = false := by
            rw [hasFormattingDifferences_symm]; exact hf1
          simp [processBothPresent, hl2, hr2, he, he2, hf1, hf2]
      · have he1 : areTextsEqual l.text r.text = false := eq_false_of_ne_true he
        have he2 : areTextsEqual r.text l.text = false := by
          rw [areTextsEqual_symm]; exact he1
        simp [processBothPresent, hl2, hr2, he1, he2]

theorem processRightTail_additions (rs : List FormattedElement) :
    (processRightTail rs).additions = rs.length := by
  induction rs with
  | nil => rfl
  | cons r rs ih =>
    simp only [processRightTail, ECAcc.prepend, ih, List.length_cons]
    omega

theorem processRightTail_deletions (rs : List FormattedElement) :
    (processRightTail rs).deletions = 0 := by
  induction rs with
  | nil => rfl
  | cons r rs ih => simp [processRightTail, ECAcc.prepend, ih]

theorem auxNilRight_additions (ls : List FormattedElement) :
    (performElementComparisonAux ls []).additions = 0 := by
  induction ls with
  | nil => rfl
  | cons l ls ih => simp [performElementComparisonAux, ECAcc.prepend, ih]

theorem auxNilRight_deletions (ls : List FormattedElement) :
    (performElementComparisonAux ls []).deletions = ls.length := by
  induction ls with
  | nil => rfl
  | cons l ls ih =>
    simp only [performElementComparisonAux, ECAcc.prepend, ih, List.length_cons]
    omega

theorem c9_aux_identity (L R : List FormattedElement) :
    (performElementComparisonAux L R).additions
      = (performElementComparisonAux R L).deletions + formatChangedCount L R := by
  induction L generalizing R with
  | nil =>
    cases R with
    | nil => rfl
    | cons r rs =>
      show (processRightTail (r :: rs)).additions
        = (performElementComparisonAux (r :: rs) []).deletions + formatChangedCount [] (r :: rs)
      rw [processRightTail_additions, auxNilRight_deletions]
      rfl
  | cons l ls ih =>
    cases R with
    | nil =>
      show (performElementComparisonAux (l :: ls) []).additions
        = (processRightTail (l :: ls)).deletions + formatChangedCount (l :: ls) []
      rw [auxNilRight_additions, processRightTail_deletions]
      rfl
    | cons r rs =>
      show ((processBothPresent l r).prepend (performElementComparisonAux ls rs)).additions
        = ((processBothPresent r l).prepend (performElementComparisonAux rs ls)).deletions
          + formatChangedCount (l :: ls) (r :: rs)
      simp only [ECAcc.prepend, formatChangedCount]
      rw [ih rs, processBothPresent_mirror l r]
      omega

/-- C9 (amended): in the element-comparison stage of the format-preserving
pipeline, the additions of compare of A against B equal the deletions of
compare of B against A plus the number of format-changed pairs, and
symmetrically; the equality the claim states holds exactly when no pair is
classified format-changed. -/
theorem c9_count_symmetry (A B : List FormattedElement) :
    (performElementComparison A B).summary.additions
      = (performElementComparison B A).summary.deletions + formatChangedCount A B
  ∧ (performElementComparison B A).summary.additions
      = (performElementComparison A B).summary.deletions + formatChangedCount A B := by
  constructor
  · show (performElementComparisonAux A B).additions
      = (performElementComparisonAux B A).deletions + formatChangedCount A B
    exact c9_aux_identity A B
  · show (performElementComparisonAux B A).additions
      = (performElementComparisonAux A B).deletions + formatChangedCount A B
    rw [formatChangedCount_symm A B]
    exact c9_aux_identity B A

/-- Counterexample for C9 as stated: two documents, one with paragraphs x
and bold a against one with paragraphs y and plain a, give two additions on
one orientation but only one deletion on the other, because a format-changed
pair increments the additions counter in both orientations. -/
theorem c9_counterexample :
    ¬ ((compareHtmlDocuments trivialRender docXA docYA).summary.additions
        = (compareHtmlDocuments trivialRender docYA docXA).summary.deletions) := by
  show ¬ ((performElementComparison docXA.elements docYA.elements).summary.additions
      = (performElementComparison docYA.elements docXA.elements).summary.deletions)
  decide

theorem processBothPresent_lengths (l r : FormattedElement) :
    (processBothPresent l r).leftProcessed.length = 1
  ∧ (processBothPresent l r).rightProcessed.length = 1 := by
  by_cases hl : l.isEmpty <;> by_cases hr : r.isEmpty <;>
    by_cases he : areTextsEqual l.text r.text <;>
    by_cases hf : hasFormattingDifferences l r <;>
    simp [processBothPresent, hl, hr, he, hf]

theorem processRightTail_lengths (rs : List FormattedElement) :
    (processRightTail rs).leftProcessed.length = (processRightTail rs).rightProcessed.length := by
  induction rs with
  | nil => rfl
  | cons r rs ih => simp [processRightTail, ECAcc.prepend, ih]

theorem performElementComparisonAux_lengths (L R : List FormattedElement) :
    (performElementComparisonAux L R).leftProcessed.length
      = (performElementComparisonAux L R).rightProcessed.length := by
  induction L generalizing R with
  | nil => exact processRightTail_lengths R
  | cons l ls ih =>
    cases R with
    | nil =>
      simp only [performElementComparisonAux, ECAcc.prepend, List.length_append,
        List.length_cons, List.length_nil]
      rw [ih []]
    | cons r rs =>
      have hp := processBothPresent_lengths l r
      simp only [performElementComparisonAux, ECAcc.prepend, List.length_append]
      rw [ih rs, hp.1, hp.2]

theorem processAlignmentRecord_lengths (L R : List ExactElement) (r : AlignmentRecord) :
    (processAlignmentRecord L R r).leftProcessed.length
      = (processAlignmentRecord L R r).rightProcessed.length := by
  unfold processAlignmentRecord
  cases hmt : r.matchType
  · cases hL : r.leftIndex.bind (fun i => L[i]?) with
    | none => simp
    | some le =>
      cases hR : r.rightIndex.bind (fun j => R[j]?) with
      | none => simp
      | some re => by_cases hid : areElementsExactlyIdentical le re <;> simp [hid]
  · cases hL : r.leftIndex.bind (fun i => L[i]?) with
    | none => simp
    | some le => simp
  · cases hR : r.rightIndex.bind (fun j => R[j]?) with
    | none => simp
    | some re => simp

theorem performExactAux_lengths (L R : List ExactElement) (A : List AlignmentRecord) :
    (performExactAux L R A).leftProcessed.length
      = (performExactAux L R A).rightProcessed.length := by
  induction A with
  | nil => rfl
  | cons r rs ih =>
    simp only [performExactAux, ExactAcc.prepend, List.length_append]
    rw [ih, processAlignmentRecord_lengths]

/-- C8: in both pipelines the two processed output streams always have the
same length; every branch of element comparison appends exactly one unit to
each side (or, for a match record with a failing lookup, none to either). -/
theorem c8_length_equivalence (L R : List ExactElement) (L2 R2 : List FormattedElement) :
    (performExactElementComparison L R).leftProcessed.length
      = (performExactElementComparison L R).rightProcessed.length
  ∧ (performElementComparison L2 R2).leftProcessed.length
      = (performElementComparison L2 R2).rightProcessed.length := by
  constructor
  · exact performExactAux_lengths L R (createExactAlignment L R)
  · exact performElementComparisonAux_lengths L2 R2

theorem nat_contains_iff (l : List Nat) (n : Nat) : l.contains n = true ↔ n ∈ l := by
  rw [List.contains]
  exact List.elem_iff

theorem nat_contains_false_iff (l : List Nat) (n : Nat) : l.contains n = false ↔ ¬n ∈ l := by
  rw [Bool.eq_false_iff, Ne, nat_contains_iff]

theorem drop_cons_head {α : Type} {L : List α} {i : Nat} {a : α} {t : List α}
    (h : L.drop i = a :: t) : L[i]? = some a := by
  have h0 : (L.drop i)[0]? = some a := by rw [h]; simp
  rw [List.getElem?_drop] at h0
  simpa using h0

theorem drop_cons_tail {α : Type} {L : List α} {i : Nat} {a : α} {t : List α}
    (h : L.drop i = a :: t) : L.drop (i + 1) = t := by
  have h2 : List.drop 1 (List.drop i L) = t := by rw [h]; rfl
  rw [List.drop_drop] at h2
  exact h2

theorem lt_length_of_getElem?_eq_some {α : Type} {l : List α} {i : Nat} {a : α}
    (h : l[i]? = some a) : i < l.length := by
  by_contra hc
  rw [List.getElem?_eq_none (by omega)] at h
  cases h

theorem findFirstRightAux_spec (pred : ExactElement → ExactElement → Bool) (le : ExactElement) :
    ∀ (rs : List ExactElement) (j : Nat) (used : List Nat) (jf : Nat),
      findFirstRightAux pred le rs j used = some jf →
      j ≤ jf ∧ used.contains jf = false
        ∧ ∃ re, rs[jf - j]? = some re ∧ pred le re = true := by
  intro rs
  induction rs with
  | nil =>
    intro j used jf h
    cases h
  | cons re rs ih =>
    intro j used jf h
    rw [findFirstRightAux] at h
    by_cases hc : (!used.contains j && pred le re) = true
    · rw [if_pos hc] at h
      obtain ⟨hc1, hc2⟩ := Bool.and_eq_true_iff.mp hc
      injection h with hjf
      subst hjf
      refine ⟨le_rfl, ?_, re, ?_, hc2⟩
      · simp only [Bool.not_eq_true'] at hc1
        exact hc1
      · simp
    · rw [if_neg hc] at h
      obtain ⟨hj, hcont, re2, hre, hpred⟩ := ih (j + 1) used jf h
      refine ⟨by omega, hcont, re2, ?_, hpred⟩
      have hd : jf - j = (jf - (j + 1)) + 1 := by omega
      rw [hd, List.getElem?_cons_succ]
      exact hre

theorem findFirstRight_spec (pred : ExactElement → ExactElement → Bool) (le : ExactElement)
    (R : List ExactElement) (used : List Nat) (jf : Nat)
    (h : findFirstRight pred le R used = some jf) :
    used.contains jf = false ∧ jf < R.length
      ∧ ∃ re, R[jf]? = some re ∧ pred le re = true := by
  obtain ⟨_, hcont, re, hre, hpred⟩ := findFirstRightAux_spec pred le R 0 used jf h
  rw [Nat.sub_zero] at hre
  exact ⟨hcont, lt_length_of_getElem?_eq_some hre, re, hre, hpred⟩

theorem claimedLeft_append (a b : List AlignmentRecord) :
    claimedLeft (a ++ b) = claimedLeft a ++ claimedLeft b := by
  unfold claimedLeft
  exact List.filterMap_append a b _

theorem claimedRight_append (a b : List AlignmentRecord) :
    claimedRight (a ++ b) = claimedRight a ++ claimedRight b := by
  unfold claimedRight
  exact List.filterMap_append a b _

theorem StateInv_empty (L R : List ExactElement) (Q : AlignmentRecord → Prop) :
    StateInv L R Q ⟨[], [], []⟩ := by
  refine ⟨List.nodup_nil, List.nodup_nil, List.Perm.refl _, List.Perm.refl _, ?_, ?_, ?_⟩
  · intro r hr
    cases hr
  · intro i hi
    cases hi
  · intro j hj
    cases hj

theorem alignPassAux_inv (pred : ExactElement → ExactElement → Bool)
    (L R : List ExactElement) (Q : AlignmentRecord → Prop)
    (hQ : ∀ i j le re, L[i]? = some le → R[j]? = some re → pred le re = true →
      Q ⟨some i, some j, MatchType.matched⟩) :
    ∀ (ls : List ExactElement) (i0 : Nat) (s : AlignState),
      ls = L.drop i0 → StateInv L R Q s → StateInv L R Q (alignPassAux pred R ls i0 s) := by
  intro ls
  induction ls with
  | nil =>
    intro i0 s _ hs
    exact hs
  | cons le ls ih =>
    intro i0 s hdrop hs
    have hL0 : L[i0]? = some le := drop_cons_head hdrop.symm
    have hdrop2 : ls = L.drop (i0 + 1) := (drop_cons_tail hdrop.symm).symm
    rw [alignPassAux]
    by_cases hused : s.leftUsed.contains i0 = true
    · rw [if_pos hused]
      exact ih (i0 + 1) s hdrop2 hs
    · rw [if_neg hused]
      have hused2 : s.leftUsed.contains i0 = false := eq_false_of_ne_true hused
      cases hfind : findFirstRight pred le R s.rightUsed with
      | none => exact ih (i0 + 1) s hdrop2 hs
      | some j =>
        obtain ⟨hcont, hjlt, re, hre, hpred⟩ :=
          findFirstRight_spec pred le R s.rightUsed j hfind
        apply ih (i0 + 1) _ hdrop2
        obtain ⟨hnl, hnr, hpl, hpr, hq, hbl, hbr⟩ := hs
        refine ⟨?_, ?_, ?_, ?_, ?_, ?_, ?_⟩
        · exact List.nodup_cons.mpr ⟨(nat_contains_false_iff _ _).mp hused2, hnl⟩
        · exact List.nodup_cons.mpr ⟨(nat_contains_false_iff _ _).mp hcont, hnr⟩
        · show List.Perm (claimedLeft (s.records ++ [⟨some i0, some j, MatchType.matched⟩]))
            (i0 :: s.leftUsed)
          rw [claimedLeft_append]
          have h1 : List.Perm (claimedLeft s.records ++ claimedLeft [⟨some i0, some j, MatchType.matched⟩])
              (claimedLeft [⟨some i0, some j, MatchType.matched⟩] ++ claimedLeft s.records) :=
            List.perm_append_comm
          refine h1.trans ?_
          show List.Perm (i0 :: claimedLeft s.records) (i0 :: s.leftUsed)
          exact hpl.cons i0
        · show List.Perm (claimedRight (s.records ++ [⟨some i0, some j, MatchType.matched⟩]))
            (j :: s.rightUsed)
          rw [claimedRight_append]
          have h1 : List.Perm (claimedRight s.records ++ claimedRight [⟨some i0, some j, MatchType.matched⟩])
              (claimedRight [⟨some i0, some j, MatchType.matched⟩] ++ claimedRight s.records) :=
            List.perm_append_comm
          refine h1.trans ?_
          show List.Perm (j :: claimedRight s.records) (j :: s.rightUsed)
          exact hpr.cons j
        · intro r hr
          rcases List.mem_append.mp hr with hr1 | hr2
          · exact hq r hr1
          · rcases List.mem_singleton.mp hr2 with rfl
            exact hQ i0 j le re hL0 hre hpred
        · intro i hi
          rcases List.mem_cons.mp hi with rfl | hi2
          · exact lt_length_of_getElem?_eq_some hL0
          · exact hbl i hi2
        · intro j2 hj
          rcases List.mem_cons.mp hj with rfl | hj2
          · exact hjlt
          · exact hbr j2 hj2

theorem fuzzyPassState_inv (L R : List ExactElement) :
    StateInv L R
      (fun r => MatchedBy areElementsExactlyIdentical L R r
        ∨ MatchedBy areElementsStructurallySimilar L R r)
      (fuzzyPassState L R) := by
  unfold fuzzyPassState alignPass
  apply alignPassAux_inv areElementsStructurallySimilar L R _
    (fun i j le re h1 h2 h3 => Or.inr ⟨i, j, le, re, rfl, h1, h2, h3⟩)
    L 0 (exactPassState L R) (List.drop_zero L).symm
  unfold exactPassState alignPass
  exact alignPassAux_inv areElementsExactlyIdentical L R _
    (fun i j le re h1 h2 h3 => Or.inl ⟨i, j, le, re, rfl, h1, h2, h3⟩)
    L 0 ⟨[], [], []⟩ (List.drop_zero L).symm (StateInv_empty L R _)

theorem mem_residualLeft {u : List Nat} {n : Nat} {r : AlignmentRecord}
    (h : r ∈ residualLeft u n) :
    ∃ i, r = ⟨some i, Option.none, MatchType.leftOnly⟩ ∧ i < n ∧ u.contains i = false := by
  obtain ⟨i, hmem, hf⟩ := List.mem_filterMap.mp h
  by_cases hc : u.contains i = true
  · rw [if_pos hc] at hf
    cases hf
  · have hc2 : u.contains i = false := eq_false_of_ne_true hc
    rw [if_neg hc] at hf
    injection hf with hf2
    exact ⟨i, hf2.symm, List.mem_range.mp hmem, hc2⟩

theorem mem_residualRight {u : List Nat} {n : Nat} {r : AlignmentRecord}
    (h : r ∈ residualRight u n) :
    ∃ j, r = ⟨Option.none, some j, MatchType.rightOnly⟩ ∧ j < n ∧ u.contains j = false := by
  obtain ⟨j, hmem, hf⟩ := List.mem_filterMap.mp h
  by_cases hc : u.contains j = true
  · rw [if_pos hc] at hf
    cases hf
  · have hc2 : u.contains j = false := eq_false_of_ne_true hc
    rw [if_neg hc] at hf
    injection hf with hf2
    exact ⟨j, hf2.symm, List.mem_range.mp hmem, hc2⟩

theorem buildAlignment_WF (L R : List ExactElement) :
    ∀ r ∈ buildAlignment L R, RecordWF L R r := by
  intro r hr
  unfold buildAlignment at hr
  rcases List.mem_append.mp hr with hr1 | hr2
  · rcases List.mem_append.mp hr1 with hq | hresL
    · have hq2 := (fuzzyPassState_inv L R).2.2.2.2.1 r hq
      have hm : ∃ i j le re, r = ⟨some i, some j, MatchType.matched⟩
          ∧ L[i]? = some le ∧ R[j]? = some re := by
        rcases hq2 with ⟨i, j, le, re, heq, h1, h2, _⟩ | ⟨i, j, le, re, heq, h1, h2, _⟩
        · exact ⟨i, j, le, re, heq, h1, h2⟩
        · exact ⟨i, j, le, re, heq, h1, h2⟩
      obtain ⟨i, j, le, re, heq, h1, h2⟩ := hm
      subst heq
      refine ⟨fun _ => ⟨i, j, rfl, rfl, lt_length_of_getElem?_eq_some h1,
        lt_length_of_getElem?_eq_some h2⟩, fun hmt => ?_, fun hmt => ?_⟩
      · cases hmt
      · cases hmt
    · obtain ⟨i, heq, hlt, _⟩ := mem_residualLeft hresL
      subst heq
      refine ⟨fun hmt => ?_, fun _ => ⟨i, rfl, rfl, hlt⟩, fun hmt => ?_⟩
      · cases hmt
      · cases hmt
  · obtain ⟨j, heq, hlt, _⟩ := mem_residualRight hr2
    subst heq
    refine ⟨fun hmt => ?_, fun hmt => ?_, fun _ => ⟨j, rfl, rfl, hlt⟩⟩
    · cases hmt
    · cases hmt

theorem createExactAlignment_WF (L R : List ExactElement) :
    ∀ r ∈ createExactAlignment L R, RecordWF L R r := by
  intro r hr
  exact buildAlignment_WF L R r ((List.mem_insertionSort alignLE).mp hr)

theorem orderedInsert_filter_key (a : AlignmentRecord) (l : List AlignmentRecord) (k : Nat) :
    (List.orderedInsert alignLE a l).filter (fun r => sortKey r == k)
      = if (sortKey a == k) = true then a :: l.filter (fun r => sortKey r == k)
        else l.filter (fun r => sortKey r == k) := by
  induction l with
  | nil =>
    by_cases hak : (sortKey a == k) = true
    · simp [List.orderedInsert, List.filter, hak]
    · have hak2 : (sortKey a == k) = false := eq_false_of_ne_true hak
      simp [List.orderedInsert, List.filter, hak2]
  | cons x xs ih =>
    rw [List.orderedInsert]
    by_cases hle : alignLE a x
    · by_cases hak : (sortKey a == k) = true
      · simp [hle, List.filter_cons, hak]
      · have hak2 : (sortKey a == k) = false := eq_false_of_ne_true hak
        simp [hle, List.filter_cons, hak2]
    · have hlt : sortKey x < sortKey a := by
        unfold alignLE at hle
        omega
      by_cases hak : (sortKey a == k) = true
      · have hka : sortKey a = k := beq_iff_eq.mp hak
        have hxk : (sortKey x == k) = false := beq_eq_false_iff_ne.mpr (by omega)
        simp [hle, List.filter_cons, hak, hxk, ih]
      · have hak2 : (sortKey a == k) = false := eq_false_of_ne_true hak
        by_cases hxk : (sortKey x == k) = true
        · simp [hle, List.filter_cons, hak2, hxk, ih]
        · have hxk2 : (sortKey x == k) = false := eq_false_of_ne_true hxk
          simp [hle, List.filter_cons, hak2, hxk2, ih]

theorem insertionSort_filter_key (l : List AlignmentRecord) (k : Nat) :
    (List.insertionSort alignLE l).filter (fun r => sortKey r == k)
      = l.filter (fun r => sortKey r == k) := by
  induction l with
  | nil => rfl
  | cons a t ih =>
    rw [List.insertionSort, orderedInsert_filter_key]
    by_cases hak : (sortKey a == k) = true
    · simp [List.filter_cons, hak, ih]
    · have hak2 : (sortKey a == k) = false := eq_false_of_ne_true hak
      simp [List.filter_cons, hak2, ih]

theorem findFirstRightAux_none (pred : ExactElement → ExactElement → Bool)
    (le : ExactElement) (rs : List ExactElement) (j : Nat) (used : List Nat)
    (h : ∀ re ∈ rs, pred le re = false) :
    findFirstRightAux pred le rs j used = Option.none := by
  induction rs generalizing j with
  | nil => rfl
  | cons re rs ih =>
    rw [findFirstRightAux, h re (List.mem_cons_self re rs)]
    simp only [Bool.and_false, Bool.false_eq_true, if_false]
    exact ih (j + 1) (fun x hx => h x (List.mem_cons_of_mem re hx))

theorem alignPassAux_no_match (pred : ExactElement → ExactElement → Bool)
    (R ls : List ExactElement) (i : Nat) (s : AlignState)
    (h : ∀ le ∈ ls, ∀ re ∈ R, pred le re = false) :
    alignPassAux pred R ls i s = s := by
  induction ls generalizing i with
  | nil => rfl
  | cons le ls ih =>
    have hrest : ∀ x ∈ ls, ∀ re ∈ R, pred x re = false :=
      fun x hx => h x (List.mem_cons_of_mem le hx)
    have hfind : findFirstRight pred le R s.rightUsed = Option.none :=
      findFirstRightAux_none pred le R 0 s.rightUsed (h le (List.mem_cons_self le ls))
    rw [alignPassAux]
    split
    · exact ih (i + 1) hrest
    · rw [hfind]
      exact ih (i + 1) hrest

theorem fuzzyPassState_bigL : fuzzyPassState bigL [exImg] = ⟨[], [], []⟩ := by
  have hpred1 : ∀ le ∈ bigL, ∀ re ∈ [exImg],
      areElementsExactlyIdentical le re = false := by
    intro le hle re hre
    simp only [bigL] at hle
    have h1 : le = exP "alpha" := List.eq_of_mem_replicate hle
    have h2 : re = exImg := by simpa using hre
    subst h1; subst h2; decide
  have hpred2 : ∀ le ∈ bigL, ∀ re ∈ [exImg],
      areElementsStructurallySimilar le re = false := by
    intro le hle re hre
    simp only [bigL] at hle
    have h1 : le = exP "alpha" := List.eq_of_mem_replicate hle
    have h2 : re = exImg := by simpa using hre
    subst h1; subst h2; decide
  unfold fuzzyPassState exactPassState alignPass
  rw [alignPassAux_no_match _ _ _ _ _ hpred1]
  exact alignPassAux_no_match _ _ _ _ _ hpred2

theorem buildAlignment_bigL :
    buildAlignment bigL [exImg] = residualLeft [] 10002 ++ residualRight [] 1 := by
  have hlen : bigL.length = 10002 := by
    show (List.replicate 10002 (exP "alpha")).length = 10002
    exact List.length_replicate 10002 (exP "alpha")
  unfold buildAlignment
  rw [fuzzyPassState_bigL, hlen]
  have h1 : (⟨[], [], []⟩ : AlignState).records = [] := rfl
  have h2 : (⟨[], [], []⟩ : AlignState).leftUsed = [] := rfl
  have h3 : (⟨[], [], []⟩ : AlignState).rightUsed = [] := rfl
  have h4 : ([exImg] : List ExactElement).length = 1 := rfl
  rw [h1, h2, h3, h4, List.nil_append]

/-- Counterexample for C4 as stated: with a left document of 10002
paragraphs none of which matches the single right image, every left
position is unmatched and the sole right-only record carries key 10000,
which sorts strictly before the left-only record at position 10001; a
right-only record therefore precedes a record with a real left position,
violating the unconditional offset guarantee the claim states. -/
theorem c4_counterexample :
    bigL.length = 10002
  ∧ ¬ rightOnlyAfterLeft (createExactAlignment bigL [exImg]) := by
  have hlen : bigL.length = 10002 := by
    show (List.replicate 10002 (exP "alpha")).length = 10002
    exact List.length_replicate 10002 (exP "alpha")
  refine ⟨hlen, ?_⟩
  intro hro
  have hsorted : List.Pairwise alignLE (createExactAlignment bigL [exImg]) :=
    List.sorted_insertionSort alignLE _
  have hmem1 : (⟨Option.none, some 0, MatchType.rightOnly⟩ : AlignmentRecord)
      ∈ createExactAlignment bigL [exImg] := by
    unfold createExactAlignment
    rw [List.mem_insertionSort, buildAlignment_bigL]
    exact List.mem_append.mpr (Or.inr (by decide))
  have hmem2 : (⟨some 10001, Option.none, MatchType.leftOnly⟩ : AlignmentRecord)
      ∈ createExactAlignment bigL [exImg] := by
    unfold createExactAlignment
    rw [List.mem_insertionSort, buildAlignment_bigL]
    apply List.mem_append.mpr
    apply Or.inl
    unfold residualLeft
    exact List.mem_filterMap.mpr ⟨10001, List.mem_range.mpr (by omega), rfl⟩
  obtain ⟨i, hi, hEi⟩ := List.mem_iff_getElem.mp hmem1
  obtain ⟨j, hj, hEj⟩ := List.mem_iff_getElem.mp hmem2
  unfold rightOnlyAfterLeft at hro
  rcases Nat.lt_trichotomy i j with hij | hij | hij
  · have hp := List.pairwise_iff_getElem.mp hro i j hi hj hij
    rw [hEi, hEj] at hp
    have hcon := hp rfl
    simp at hcon
  · subst hij
    rw [hEi] at hEj
    exact absurd hEj (by decide)
  · have hp := List.pairwise_iff_getElem.mp hsorted j i hj hi hij
    rw [hEi, hEj] at hp
    exact absurd hp (by decide)

/-- C4 (amended): the final alignment is sorted ascending by the key of the source
comparator (the left index when present, otherwise the right index plus the
fixed offset ten thousand), records with equal keys keep their stable input
order (the sorted list restricted to any key equals the unsorted list so
restricted), and whenever the left document has at most ten thousand
elements no right-only record ever precedes a record carrying a real left
position. -/
theorem c4_final_ordering (L R : List ExactElement) :
    List.Sorted alignLE (createExactAlignment L R)
  ∧ (∀ k : Nat, (createExactAlignment L R).filter (fun r => sortKey r == k)
      = (buildAlignment L R).filter (fun r => sortKey r == k))
  ∧ (L.length ≤ 10000 → rightOnlyAfterLeft (createExactAlignment L R)) := by
  refine ⟨List.sorted_insertionSort alignLE _,
    fun k => insertionSort_filter_key (buildAlignment L R) k, fun hlen => ?_⟩
  have hsorted : List.Pairwise alignLE (createExactAlignment L R) :=
    List.sorted_insertionSort alignLE _
  unfold rightOnlyAfterLeft
  apply List.Pairwise.imp_of_mem ?_ hsorted
  intro r1 r2 h1 h2 hle hro
  have w1 := createExactAlignment_WF L R r1 h1
  have w2 := createExactAlignment_WF L R r2 h2
  obtain ⟨j, hl1, hr1, hjlt⟩ := w1.2.2 hro
  cases hli : r2.leftIndex with
  | none => rfl
  | some i =>
    exfalso
    have hi_lt : i < L.length := by
      rcases hmt2 : r2.matchType with _ | _ | _
      · obtain ⟨i2, j2, hli2, _, hlt2, _⟩ := w2.1 hmt2
        rw [hli] at hli2
        injection hli2 with he
        omega
      · obtain ⟨i2, hli2, _, hlt2⟩ := w2.2.1 hmt2
        rw [hli] at hli2
        injection hli2 with he
        omega
      · obtain ⟨j2, hnone, _, _⟩ := w2.2.2 hmt2
        rw [hli] at hnone
        cases hnone
    have hk1 : sortKey r1 = j + 10000 := by
      unfold sortKey
      rw [hl1, hr1]
      rfl
    have hk2 : sortKey r2 = i := by
      unfold sortKey
      rw [hli]
    unfold alignLE at hle
    omega

/-- Witness for C4 at a concrete input: a one-paragraph document against a
one-image document gives a sorted two-record alignment in which the
right-only record follows the left-only record. -/
theorem c4_final_ordering_witness :
    rightOnlyAfterLeft (createExactAlignment [exP "alpha"] [exImg]) :=
  (c4_final_ordering [exP "alpha"] [exImg]).2.2 (by decide)

theorem processAlignmentRecord_matched (L R : List ExactElement) (r : AlignmentRecord)
    (i j : Nat) (le re : ExactElement)
    (hmt : r.matchType = MatchType.matched) (hli : r.leftIndex = some i)
    (hri : r.rightIndex = some j) (hLi : L[i]? = some le) (hRj : R[j]? = some re) :
    processAlignmentRecord L R r =
      if areElementsExactlyIdentical le re then
        ⟨[⟨some le, Highlight.none, Option.none⟩],
         [⟨some re, Highlight.none, Option.none⟩], 0, 0, 0⟩
      else
        ⟨[⟨some le, Highlight.modified, Option.none⟩],
         [⟨some re, Highlight.modified, Option.none⟩], 0, 0, 1⟩ := by
  unfold processAlignmentRecord
  rw [hmt, hli, hri]
  simp [Option.bind, hLi, hRj]

theorem processAlignmentRecord_leftOnly (L R : List ExactElement) (r : AlignmentRecord)
    (i : Nat) (le : ExactElement)
    (hmt : r.matchType = MatchType.leftOnly) (hli : r.leftIndex = some i)
    (hLi : L[i]? = some le) :
    processAlignmentRecord L R r =
      ⟨[⟨some le, Highlight.removed, Option.none⟩],
       [createExactSpacePlaceholder le "removed"], 0, 1, 0⟩ := by
  unfold processAlignmentRecord
  rw [hmt, hli]
  simp [Option.bind, hLi]

theorem processAlignmentRecord_rightOnly (L R : List ExactElement) (r : AlignmentRecord)
    (j : Nat) (re : ExactElement)
    (hmt : r.matchType = MatchType.rightOnly) (hri : r.rightIndex = some j)
    (hRj : R[j]? = some re) :
    processAlignmentRecord L R r =
      ⟨[createExactSpacePlaceholder re "added"],
       [⟨some re, Highlight.added, Option.none⟩], 1, 0, 0⟩ := by
  unfold processAlignmentRecord
  rw [hmt, hri]
  simp [Option.bind, hRj]

theorem performExactAux_counts (L R : List ExactElement) :
    ∀ (A : List AlignmentRecord), (∀ r ∈ A, RecordWF L R r) →
      (performExactAux L R A).additions = countMatchType MatchType.rightOnly A
    ∧ (performExactAux L R A).deletions = countMatchType MatchType.leftOnly A
    ∧ (performExactAux L R A).modifications = modifiedMatchCount L R A := by
  intro A
  induction A with
  | nil =>
    intro _
    exact ⟨rfl, rfl, rfl⟩
  | cons r rs ih =>
    intro hwf
    have hr := hwf r (List.mem_cons_self r rs)
    obtain ⟨ha, hd, hm⟩ := ih (fun x hx => hwf x (List.mem_cons_of_mem r hx))
    rcases hmt : r.matchType with _ | _ | _
    · obtain ⟨i, j, hli, hri, hilt, hjlt⟩ := hr.1 hmt
      have hLi : L[i]? = some L[i] := List.getElem?_eq_getElem hilt
      have hRj : R[j]? = some R[j] := List.getElem?_eq_getElem hjlt
      have hhead := processAlignmentRecord_matched L R r i j _ _ hmt hli hri hLi hRj
      simp only [performExactAux, ExactAcc.prepend, hhead, countMatchType, modifiedMatchCount,
        List.countP_cons]
      by_cases hid : areElementsExactlyIdentical L[i] R[j] = true
      · rw [if_pos hid]
        simp only [countMatchType, modifiedMatchCount] at ha hd hm
        simp [hmt, hli, hri, hLi, hRj, hid, ha, hd, hm]
      · have hid2 : areElementsExactlyIdentical L[i] R[j] = false :=
          eq_false_of_ne_true hid
        rw [if_neg hid]
        simp only [countMatchType, modifiedMatchCount] at ha hd hm
        simp [hmt, hli, hri, hLi, hRj, hid2, ha, hd, hm] <;> omega
    · obtain ⟨i, hli, hri, hilt⟩ := hr.2.1 hmt
      have hLi : L[i]? = some L[i] := List.getElem?_eq_getElem hilt
      have hhead := processAlignmentRecord_leftOnly L R r i _ hmt hli hLi
      simp only [performExactAux, ExactAcc.prepend, hhead, countMatchType, modifiedMatchCount,
        List.countP_cons] at ha hd hm ⊢
      simp [hmt, ha, hd, hm] <;> omega
    · obtain ⟨j, hli, hri, hjlt⟩ := hr.2.2 hmt
      have hRj : R[j]? = some R[j] := List.getElem?_eq_getElem hjlt
      have hhead := processAlignmentRecord_rightOnly L R r j _ hmt hri hRj
      simp only [performExactAux, ExactAcc.prepend, hhead, countMatchType, modifiedMatchCount,
        List.countP_cons] at ha hd hm ⊢
      simp [hmt, ha, hd, hm] <;> omega

theorem processBothPresent_additions (l r : FormattedElement) :
    (processBothPresent l r).additions
      = (if l.isEmpty && !r.isEmpty then 1 else 0)
        + (if !l.isEmpty && !r.isEmpty && areTextsEqual l.text r.text
            && hasFormattingDifferences l r then 1 else 0)
        + (if !l.isEmpty && !r.isEmpty && !areTextsEqual l.text r.text then 1 else 0) := by
  by_cases hl : l.isEmpty <;> by_cases hr : r.isEmpty <;>
    by_cases he : areTextsEqual l.text r.text <;>
    by_cases hf : hasFormattingDifferences l r <;>
    simp [processBothPresent, hl, hr, he, hf]

theorem processBothPresent_deletions (l r : FormattedElement) :
    (processBothPresent l r).deletions
      = (if !l.isEmpty && r.isEmpty then 1 else 0)
        + (if !l.isEmpty && !r.isEmpty && !areTextsEqual l.text r.text then 1 else 0) := by
  by_cases hl : l.isEmpty <;> by_cases hr : r.isEmpty <;>
    by_cases he : areTextsEqual l.text r.text <;>
    by_cases hf : hasFormattingDifferences l r <;>
    simp [processBothPresent, hl, hr, he, hf]

theorem aux_additions_accum (L R : List FormattedElement) :
    (performElementComparisonAux L R).additions
      = addedEmptyPairCount L R + formatChangedCount L R + modifiedPairCount L R
        + (R.length - L.length) := by
  induction L generalizing R with
  | nil =>
    cases R with
    | nil => rfl
    | cons r rs =>
      show (processRightTail (r :: rs)).additions
        = addedEmptyPairCount [] (r :: rs) + formatChangedCount [] (r :: rs)
          + modifiedPairCount [] (r :: rs) + ((r :: rs).length - ([] : List FormattedElement).length)
      rw [processRightTail_additions]
      simp [addedEmptyPairCount, formatChangedCount, modifiedPairCount]
  | cons l ls ih =>
    cases R with
    | nil =>
      show (performElementComparisonAux (l :: ls) []).additions
        = addedEmptyPairCount (l :: ls) [] + formatChangedCount (l :: ls) []
          + modifiedPairCount (l :: ls) [] + (([] : List FormattedElement).length - (l :: ls).length)
      rw [auxNilRight_additions]
      simp [addedEmptyPairCount, formatChangedCount, modifiedPairCount]
    | cons r rs =>
      show ((processBothPresent l r).prepend (performElementComparisonAux ls rs)).additions
        = addedEmptyPairCount (l :: ls) (r :: rs) + formatChangedCount (l :: ls) (r :: rs)
          + modifiedPairCount (l :: ls) (r :: rs) + ((r :: rs).length - (l :: ls).length)
      simp only [ECAcc.prepend, addedEmptyPairCount, formatChangedCount, modifiedPairCount,
        List.length_cons]
      rw [ih rs, processBothPresent_additions]
      omega

theorem aux_deletions_accum (L R : List FormattedElement) :
    (performElementComparisonAux L R).deletions
      = removedEmptyPairCount L R + modifiedPairCount L R + (L.length - R.length) := by
  induction L generalizing R with
  | nil =>
    cases R with
    | nil => rfl
    | cons r rs =>
      show (processRightTail (r :: rs)).deletions
        = removedEmptyPairCount [] (r :: rs) + modifiedPairCount [] (r :: rs)
          + (([] : List FormattedElement).length - (r :: rs).length)
      rw [processRightTail_deletions]
      simp [removedEmptyPairCount, modifiedPairCount]
  | cons l ls ih =>
    cases R with
    | nil =>
      show (performElementComparisonAux (l :: ls) []).deletions
        = removedEmptyPairCount (l :: ls) [] + modifiedPairCount (l :: ls) []
          + ((l :: ls).length - ([] : List FormattedElement).length)
      rw [auxNilRight_deletions]
      simp [removedEmptyPairCount, modifiedPairCount]
    | cons r rs =>
      show ((processBothPresent l r).prepend (performElementComparisonAux ls rs)).deletions
        = removedEmptyPairCount (l :: ls) (r :: rs) + modifiedPairCount (l :: ls) (r :: rs)
          + ((l :: ls).length - (r :: rs).length)
      simp only [ECAcc.prepend, removedEmptyPairCount, modifiedPairCount, List.length_cons]
      rw [ih rs, processBothPresent_deletions]
      omega

/-- C6 (amended): in the exact-mutual pipeline, additions and deletions are
accumulated solely from alignment record counts (right-only records are the
additions, left-only records the deletions) and changes equal their sum plus
the separately tracked modifications (the non-identical match records); in
the format-preserving pipeline, additions are accumulated from
empty-against-present pairs, format-changed pairs, modified pairs and the
excess right length, deletions from present-against-empty pairs, modified
pairs and the excess left length, and changes equal additions plus
deletions. -/
theorem c6_summary_accumulation (L R : List ExactElement) (L2 R2 : List FormattedElement) :
    (performExactElementComparison L R).summary.additions
      = countMatchType MatchType.rightOnly (createExactAlignment L R)
  ∧ (performExactElementComparison L R).summary.deletions
      = countMatchType MatchType.leftOnly (createExactAlignment L R)
  ∧ (performExactElementComparison L R).summary.changes
      = (performExactElementComparison L R).summary.additions
        + (performExactElementComparison L R).summary.deletions
        + modifiedMatchCount L R (createExactAlignment L R)
  ∧ (performElementComparison L2 R2).summary.additions
      = addedEmptyPairCount L2 R2 + formatChangedCount L2 R2 + modifiedPairCount L2 R2
        + (R2.length - L2.length)
  ∧ (performElementComparison L2 R2).summary.deletions
      = removedEmptyPairCount L2 R2 + modifiedPairCount L2 R2 + (L2.length - R2.length)
  ∧ (performElementComparison L2 R2).summary.changes
      = (performElementComparison L2 R2).summary.additions
        + (performElementComparison L2 R2).summary.deletions := by
  obtain ⟨ha, hd, hm⟩ :=
    performExactAux_counts L R (createExactAlignment L R) (createExactAlignment_WF L R)
  refine ⟨ha, hd, ?_, aux_additions_accum L2 R2, aux_deletions_accum L2 R2, rfl⟩
  simp only [performExactElementComparison]
  rw [hm]

/-- Counterexample for C6 as stated: in the format-preserving pipeline a
single modified pair (both elements present and non-empty, differing texts)
increments both additions and deletions although the comparison has no
added or removed position at all, so the counters are not accumulated
solely from one-sided record counts. -/
theorem c6_counterexample :
    feX.isEmpty = false ∧ feY.isEmpty = false
  ∧ (performElementComparison [feX] [feY]).summary.additions = 1
  ∧ (performElementComparison [feX] [feY]).summary.deletions = 1 := by
  exact ⟨by decide, by decide, by decide, by decide⟩
